import Mathlib

/-!
# Gerrit server descriptors: parsing of remotes and resolution of the REST root

A shallow embedding of `src/plugins/git/gerrit/gerritparameters.cpp`. The
header with the class declarations is not among the sources: the data types
follow the uses in the `.cpp` file and the data model of the specification.

* A `QString` is a `List Char` (a list of code points; the pattern engine
  works on code points, not on UTF-16 units).
* `unsigned short` and `int` values are `Nat`s; the two conversions
  `toUShort` and `toInt` return `0` when the value does not fit.
* Everything outside the file (host OS, file system, the process that runs
  the probing tool, the JSON reader, the authentication dialog) is a field of
  `Host`, acting on an abstract world state `σ`.
* Each call of the probing tool and each run of the dialog is appended to a
  trace, so that "no probe" and "exactly one probe" can be stated.
-/

namespace Gerrit

/-! ## Strings -/

/-- Model of `QString::contains(sub)`: `sub` occurs somewhere in `s`. -/
def contains (s sub : List Char) : Bool :=
  match s with
  | [] => sub.isEmpty
  | c :: cs => sub.isPrefixOf (c :: cs) || contains cs sub

/-- Model of `QString::lastIndexOf(ch)`: index of the last `ch`, `none` for `-1`. -/
def lastIndexOf (ch : Char) : List Char → Option Nat
  | [] => none
  | c :: cs =>
    match lastIndexOf ch cs with
    | some i => some (i + 1)
    | none => if c = ch then some 0 else none

/-- Value of a string of decimal digits, read left to right from `acc`. -/
def digitsValue (acc : Nat) : List Char → Nat
  | [] => acc
  | c :: cs => digitsValue (10 * acc + (c.toNat - 48)) cs

/-- Model of `QString::toUShort()` on a string of decimal digits (all this file feeds
it): the value when it fits 16 bits, else `0`; `0` for the empty string. -/
def toUShort (s : List Char) : Nat :=
  if digitsValue 0 s ≤ 65535 then digitsValue 0 s else 0

/-- Model of `QString::toInt()` on a string of decimal digits: the value when it fits
a 32-bit `int`, else `0`. -/
def toInt (s : List Char) : Nat :=
  if digitsValue 0 s ≤ 2147483647 then digitsValue 0 s else 0

/-- Model of `QString::number(n)` for an unsigned value: its decimal digits. -/
def number (n : Nat) : List Char := Nat.toDigits 10 n

/-! ## The pattern engine

A backtracking matcher returns every way to match, in the order the engine
tries them; the match reported is the first one. -/

/-- A greedy repetition of a character class: every split of `s` into a
prefix of at least `least` characters of the class and the rest, longest
prefix first (the order in which backtracking gives characters back): first
the splits that take the next character, then the one that stops here. -/
def greedy (cls : Char → Bool) (least : Nat) : List Char → List (List Char × List Char)
  | [] => if least = 0 then [([], [])] else []
  | c :: cs =>
    (if cls c then (greedy cls (least - 1) cs).map (fun tr => (c :: tr.1, tr.2)) else []) ++
      (if least = 0 then [([], c :: cs)] else [])

/-- The anchor `$` without the multiline option: the end of the subject, or just before
a line feed that ends the subject. -/
def atDollar (s : List Char) : Bool :=
  match s with
  | [] => true
  | [c] => c = '\n'
  | _ => false

/-- The captures of `remotePattern`; a group that took no part is empty. -/
structure RemoteMatch where
  protocol : List Char
  user : List Char
  host : List Char
  port : List Char
  path : List Char
  deriving DecidableEq, Repr

/-- The end of the pattern, `(?<path>/.*)$`: the captured paths, in backtracking order. The dot
matches every character but a line feed. -/
def matchPath (s : List Char) : List (List Char) :=
  match s with
  | '/' :: rest =>
    (greedy (fun c => c ≠ '\n') 0 rest).filterMap
      (fun tr => if atDollar tr.2 then some ('/' :: tr.1) else none)
  | _ => []

/-- The part `:?(?<path>/.*)$`: the colon is taken first, then left out. -/
def matchColonPath (s : List Char) : List (List Char) :=
  (match s with
   | ':' :: rest => matchPath rest
   | _ => []) ++ matchPath s

/-- The part `(?::(?<port>\d+))?:?(?<path>/.*)$`: pairs (port, path). -/
def matchPortOnward (s : List Char) : List (List Char × List Char) :=
  (match s with
   | ':' :: rest =>
     (greedy Char.isDigit 1 rest).flatMap
       (fun dr => (matchColonPath dr.2).map (fun p => (dr.1, p)))
   | _ => []) ++ (matchColonPath s).map (fun p => ([], p))

/-- The part `(?<host>[^:/]+)(?::(?<port>\d+))?:?(?<path>/.*)$`. -/
def matchHostOnward (s : List Char) : List RemoteMatch :=
  (greedy (fun c => c ≠ ':' && c ≠ '/') 1 s).flatMap
    (fun hr => (matchPortOnward hr.2).map
      (fun pp => { protocol := [], user := [], host := hr.1, port := pp.1, path := pp.2 }))

/-- The group `(?:(?<user>[^@]+)@)?` and what follows: the group is tried first, then
skipped. -/
def matchUserOnward (s : List Char) : List RemoteMatch :=
  ((greedy (fun c => c ≠ '@') 1 s).flatMap
    (fun ur =>
      match ur.2 with
      | '@' :: rest => (matchHostOnward rest).map (fun m => { m with user := ur.1 })
      | _ => [])) ++ matchHostOnward s

/-- The group `^(?:(?<protocol>[^:]+)://)?` and what follows: every match of the whole
pattern at the start of the subject, in backtracking order. -/
def remoteMatches (s : List Char) : List RemoteMatch :=
  ((greedy (fun c => c ≠ ':') 1 s).flatMap
    (fun pr =>
      match pr.2 with
      | ':' :: '/' :: '/' :: rest =>
        (matchUserOnward rest).map (fun m => { m with protocol := pr.1 })
      | _ => [])) ++ matchUserOnward s

/-- The call `remotePattern.match(remote)`: the first match, `none` for no match. -/
def remotePatternMatch (remote : List Char) : Option RemoteMatch :=
  (remoteMatches remote).head?

/-- The shape of the captures from the host on: a host of one character or
more, none of them `:` or `/`; a port of digits; a path that begins with
`/` and has no line feed. A match needs a `/` in the subject. -/
def RemoteMatch.WellFormed (m : RemoteMatch) : Prop :=
  (∃ q, m.path = '/' :: q ∧ '\n' ∉ q) ∧ m.host ≠ [] ∧
  (∀ c ∈ m.host, c ≠ ':' ∧ c ≠ '/') ∧ (∀ c ∈ m.port, c.isDigit = true)

/-- The leftmost match of `returned error: (\d+)` anywhere in `s`: its group
1 (the digits, as many as there are), `none` for no match. -/
def errorRegexpMatch (s : List Char) : Option (List Char) :=
  match s with
  | [] => none
  | c :: cs =>
    if "returned error: ".toList.isPrefixOf (c :: cs) then
      match ((greedy Char.isDigit 1 ((c :: cs).drop 16)).map (fun dr => dr.1)).head? with
      | some d => some d
      | none => errorRegexpMatch cs
    else errorRegexpMatch cs

/-! ## Data model -/

/-- Modelled from the spec: the enumeration `GerritServer::HostType` is declared in
`gerritparameters.h`, which is not among the sources; its three values are the
ones `url` and `fillFromRemote` use (the spec's `protocolKind`). -/
inductive HostType where
  | Http
  | Https
  | Ssh
  deriving DecidableEq, Repr

/-- Modelled from the spec: the class `GerritUser` is declared in
`gerritparameters.h`, which is not among the sources; the two fields are the
ones `isSameAs` reads (the spec's composite `user`). -/
structure GerritUser where
  userName : List Char
  fullName : List Char
  deriving DecidableEq, Repr

/-- Modelled from the spec: the class `GerritServer` is declared in
`gerritparameters.h`, which is not among the sources; the fields are the ones
the member functions use (the spec's `ServerDescriptor`). `port` is an
`unsigned short`. -/
structure GerritServer where
  host : List Char
  user : GerritUser
  rootPath : List Char
  port : Nat
  type : HostType
  authenticated : Bool
  curlBinary : List Char
  deriving DecidableEq, Repr

/-- Modelled from the spec: the class `GerritParameters` is declared in
`gerritparameters.h`, which is not among the sources; the fields are the ones
`equals`, `toSettings` and `fromSettings` use. -/
structure GerritParameters where
  server : GerritServer
  ssh : List Char
  curl : List Char
  savedQueries : List (List Char)
  https : Bool
  portFlag : List Char
  deriving DecidableEq, Repr

/-- What the process runner hands back, `SynchronousProcessResponse`:
whether `result == Finished`, and the two output streams. -/
structure SynchronousProcessResponse where
  finished : Bool
  stdOut : List Char
  stdErr : List Char
  deriving DecidableEq, Repr

/-- What the descriptor asks of its surroundings. -/
inductive Event where
  | probe (binary : List Char) (arguments : List (List Char))
  | authenticationDialog
  deriving DecidableEq, Repr

/-- The collaborators of the file, over a world state `σ`.
* `isWindowsHost`: `HostOsInfo::isWindowsHost()`;
* `fileExists`: `QFile::exists`;
* `exec`: `GitClient::vcsFullySynchronousExec` with the binary and the
  arguments;
* `jsonName`: `QJsonDocument::fromJson(text)`, `none` for a null document,
  else `doc.object().value("name").toString()`;
* `dialog`: `AuthenticationDialog`, run on the descriptor: the value of
  `exec()` and of `isAuthenticated()`. -/
structure Host (σ : Type) where
  isWindowsHost : Bool
  fileExists : List Char → Bool
  exec : σ → List Char → List (List Char) → SynchronousProcessResponse × σ
  jsonName : List Char → Option (List Char)
  dialog : σ → GerritServer → (Bool × Bool) × σ

/-- A descriptor being worked on: the descriptor, the world, and what has
been asked of the world so far (oldest first). -/
structure Run (σ : Type) where
  server : GerritServer
  world : σ
  trace : List Event
  deriving DecidableEq

/-- The number of probes in a trace. -/
def probeCount (t : List Event) : Nat :=
  (t.filter (fun e => match e with
    | Event.probe _ _ => true
    | Event.authenticationDialog => false)).length

/-! ## Operations -/

/-- The function `GerritUser::isSameAs`. -/
def GerritUser.isSameAs (u other : GerritUser) : Bool :=
  if !u.userName.isEmpty && !other.userName.isEmpty then
    u.userName == other.userName
  else if !u.fullName.isEmpty && !other.fullName.isEmpty then
    u.fullName == other.fullName
  else false

/-- The function `GerritServer::operator==`. -/
def GerritServer.eq (s other : GerritServer) : Bool :=
  if s.port != 0 && other.port != 0 && s.port != other.port then false
  else s.host == other.host && s.user.isSameAs other.user && s.type == other.type

/-- The function `GerritServer::hostArgument`. -/
def GerritServer.hostArgument (s : GerritServer) : List Char :=
  if s.user.userName.isEmpty then s.host else s.user.userName ++ '@' :: s.host

/-- The function `GerritServer::url`. -/
def GerritServer.url (s : GerritServer) (withHttpUser : Bool) : List Char :=
  let protocol := match s.type with
    | HostType.Ssh => "ssh".toList
    | HostType.Http => "http".toList
    | HostType.Https => "https".toList
  let res := protocol ++ "://".toList
  let res := if s.type == HostType.Ssh || withHttpUser then res ++ s.hostArgument
             else res ++ s.host
  let res := if s.port != 0 then res ++ ':' :: number s.port else res
  let res := if s.type != HostType.Ssh then res ++ s.rootPath else res
  res

/-- The function `GerritServer::restUrl`. -/
def GerritServer.restUrl (s : GerritServer) : List Char :=
  let res := s.url true
  if s.type != HostType.Ssh && s.authenticated then res ++ "/a".toList else res

/-- The function `GerritServer::curlArguments`. -/
def curlArguments : List (List Char) :=
  ["-kfnsS".toList, "--basic".toList, "--digest".toList]

/-- The constant `accountUrlC`. -/
def accountUrlC : List Char := "/accounts/self".toList

/-- The statement `output.remove(0, output.indexOf('\n'))`: drops what stands before the
first line feed; with no line feed the index is `-1` and nothing is removed. -/
def stripFirstLine (output : List Char) : List Char :=
  if '\n' ∈ output then output.dropWhile (fun c => c ≠ '\n') else output

/-- The function `GerritServer::testConnection`: the code, and the run after the probe. -/
def testConnection {σ : Type} (h : Host σ) (r : Run σ) : Nat × Run σ :=
  let arguments := curlArguments ++ [r.server.restUrl ++ accountUrlC]
  let resp := h.exec r.world r.server.curlBinary arguments
  let r1 : Run σ := { server := r.server, world := resp.2,
                      trace := r.trace ++ [Event.probe r.server.curlBinary arguments] }
  if resp.1.finished then
    match h.jsonName (stripFirstLine resp.1.stdOut) with
    | some name =>
      (200, { r1 with server := { r1.server with user := { r1.server.user with fullName := name } } })
    | none => (200, r1)
  else
    match errorRegexpMatch resp.1.stdErr with
    | some code => (toInt code, r1)
    | none => (400, r1)

/-- The function `GerritServer::setupAuthentication`. -/
def setupAuthentication {σ : Type} (h : Host σ) (r : Run σ) : Bool × Run σ :=
  let d := h.dialog r.world r.server
  let r1 : Run σ := { server := r.server, world := d.2,
                      trace := r.trace ++ [Event.authenticationDialog] }
  if !d.1.1 then (false, r1)
  else (true, { r1 with server := { r1.server with authenticated := d.1.2 } })

/-- The function `GerritServer::ascendPath`. -/
def GerritServer.ascendPath (s : GerritServer) : Bool × GerritServer :=
  match lastIndexOf '/' s.rootPath with
  | none => (false, s)
  | some lastSlash => (true, { s with rootPath := s.rootPath.take lastSlash })

/-- The loop of `GerritServer::resolveRoot`, with a bound on the number of
probes; `none` when the bound is used up. -/
def resolveRootLoop {σ : Type} (h : Host σ) : Nat → Run σ → Option (Bool × Run σ)
  | 0, _ => none
  | fuel + 1, r =>
    let t := testConnection h r
    if t.1 = 200 then some (true, t.2)
    else if t.1 = 401 then some (setupAuthentication h t.2)
    else if t.1 = 404 then
      let a := t.2.server.ascendPath
      if !a.1 then some (false, { t.2 with server := a.2 })
      else resolveRootLoop h fuel { t.2 with server := a.2 }
    else some (false, t.2)

/-- The function `GerritServer::resolveRoot`: the loop, with one probe allowed for each
character of `rootPath` and one more (`resolveRoot_isSome`: that is enough). -/
def resolveRoot {σ : Type} (h : Host σ) (r : Run σ) : Option (Bool × Run σ) :=
  resolveRootLoop h (r.server.rootPath.length + 1) r

/-- The function `GerritServer::fillFromRemote`, on the descriptor of `r`. -/
def fillFromRemote {σ : Type} (h : Host σ) (remote : List Char)
    (parameters : GerritParameters) (r : Run σ) : Option (Bool × Run σ) :=
  if remote.isEmpty || remote.head? == some '/' || remote.head? == some '.' then
    some (false, r)
  else if h.isWindowsHost && remote[1]? == some ':' then some (false, r)
  else
    match remotePatternMatch remote with
    | none => some (false, r)
    | some m =>
      let type? : Option HostType :=
        if m.protocol = "https".toList then some HostType.Https
        else if m.protocol = "http".toList then some HostType.Http
        else if m.protocol.isEmpty || m.protocol = "ssh".toList then some HostType.Ssh
        else none
      match type? with
      | none => some (false, r)
      | some type =>
        let userName := if m.user.isEmpty then parameters.server.user.userName else m.user
        let s : GerritServer :=
          { r.server with type := type, user := { r.server.user with userName := userName },
                          host := m.host, port := toUShort m.port }
        if contains s.host "github.com".toList then some (false, { r with server := s })
        else if s.type != HostType.Ssh then
          let s : GerritServer := { s with curlBinary := parameters.curl }
          if s.curlBinary.isEmpty || !h.fileExists s.curlBinary then
            some (false, { r with server := s })
          else
            let s : GerritServer := { s with rootPath := m.path }
            let s := s.ascendPath.2
            match resolveRoot h { r with server := s } with
            | none => none
            | some res => if !res.1 then some (false, res.2) else some (true, res.2)
        else some (true, { r with server := s })

/-! ## Concrete surroundings used to run the definitions -/

/-- A host whose probing tool answers from a script: the world is the number
of probes made so far, and probe number `n` gets `script n`. The tool exists
exactly under `/usr/bin/curl`, no JSON document is readable, and the dialog
answers `(accepted, authenticated)`. -/
def scriptedHost (windows : Bool) (script : Nat → SynchronousProcessResponse)
    (accepted authenticated : Bool) : Host Nat where
  isWindowsHost := windows
  fileExists := fun f => f = "/usr/bin/curl".toList
  exec := fun n _ _ => (script n, n + 1)
  jsonName := fun _ => none
  dialog := fun n _ => ((accepted, authenticated), n)

/-- The answer of a probing tool that ran and got a document. -/
def okResponse : SynchronousProcessResponse :=
  { finished := true, stdOut := ")]\x7d\x27\n\x7b\x7d".toList, stdErr := [] }

/-- The answer of a probing tool that failed with the given text on stderr. -/
def errorResponse (stdErr : String) : SynchronousProcessResponse :=
  { finished := false, stdOut := [], stdErr := stdErr.toList }

/-- A descriptor as the default constructor leaves it (`defaultHostC`,
`defaultPort`), with nothing else set. -/
def defaultServer : GerritServer :=
  { host := "codereview.qt-project.org".toList, user := { userName := [], fullName := [] },
    rootPath := [], port := 29418, type := HostType.Ssh, authenticated := false,
    curlBinary := [] }

/-- A configuration with the fallback user `bob` and a probing tool. -/
def sampleParameters : GerritParameters :=
  { server := { defaultServer with user := { userName := "bob".toList, fullName := [] } },
    ssh := "/usr/bin/ssh".toList, curl := "/usr/bin/curl".toList, savedQueries := [],
    https := true, portFlag := "-p".toList }

/-- A fresh run: the default descriptor, no probe made, nothing asked. -/
def freshRun : Run Nat := { server := defaultServer, world := 0, trace := [] }

/-- A descriptor for `example.org` with the given port and names. -/
def sampleServer (port : Nat) (userName fullName : String) : GerritServer :=
  { defaultServer with host := "example.org".toList, port := port,
                       user := { userName := userName.toList, fullName := fullName.toList } }

/-- A descriptor for `https://example.org` with the probing tool set, as
parsing leaves it before resolution starts, at the given root path. -/
def httpsRun (rootPath : String) : Run Nat :=
  { server := { defaultServer with host := "example.org".toList, port := 0,
                                   type := HostType.Https, rootPath := rootPath.toList,
                                   curlBinary := "/usr/bin/curl".toList },
    world := 0, trace := [] }

/-- A probing tool that is asked for credentials on its first run and gets
a server error on every later one. -/
def challengedScript (n : Nat) : SynchronousProcessResponse :=
  if n = 0 then errorResponse "curl: (22) The requested URL returned error: 401 Unauthorized"
  else errorResponse "curl: (22) The requested URL returned error: 500"

/-- A probing tool that never finds the page. -/
def notFoundScript (_ : Nat) : SynchronousProcessResponse :=
  errorResponse "curl: (22) The requested URL returned error: 404 Not Found"

/-- A probing tool that is asked for credentials on every run: its answer is
the same whatever the URL and the state of the world. -/
def unauthorizedScript (_ : Nat) : SynchronousProcessResponse :=
  errorResponse "curl: (22) The requested URL returned error: 401 Unauthorized"

/-- The number of segments of a path: each `/` begins one (so
`/review/myrepo` has two, and a doubled or trailing `/` begins an empty one). -/
def segmentCount (path : List Char) : Nat := path.count '/'

/-- What `fillFromRemote` returns, with the kind and the host of the
descriptor it leaves. -/
def fillSummary {σ : Type} (res : Option (Bool × Run σ)) :
    Option (Bool × HostType × List Char) :=
  res.map (fun x => (x.1, x.2.server.type, x.2.server.host))

/-! ## Facts about the pattern engine -/

/-- Every split a greedy repetition offers is a split of the subject, long
enough, and takes characters of the class only. -/
theorem mem_greedy (cls : Char → Bool) : ∀ (s : List Char) (least : Nat) (t r : List Char),
    (t, r) ∈ greedy cls least s →
    t ++ r = s ∧ least ≤ t.length ∧ ∀ c ∈ t, cls c = true := by
  intro s
  induction s with
  | nil =>
    intro least t r h
    unfold greedy at h
    split at h
    · rename_i h0
      simp only [List.mem_singleton, Prod.mk.injEq] at h
      obtain ⟨rfl, rfl⟩ := h
      simp [h0]
    · simp at h
  | cons c cs ih =>
    intro least t r h
    unfold greedy at h
    rcases List.mem_append.1 h with h1 | h1
    · split at h1
      · rename_i hc
        obtain ⟨⟨t', r'⟩, hmem, heq⟩ := List.mem_map.1 h1
        simp only [Prod.mk.injEq] at heq
        obtain ⟨rfl, rfl⟩ := heq
        obtain ⟨e, hl, hall⟩ := ih _ _ _ hmem
        refine ⟨by simp [e], by simp only [List.length_cons]; omega, ?_⟩
        intro x hx
        rcases List.mem_cons.1 hx with rfl | hx
        · exact hc
        · exact hall x hx
      · simp at h1
    · split at h1
      · rename_i h0
        simp only [List.mem_singleton, Prod.mk.injEq] at h1
        obtain ⟨rfl, rfl⟩ := h1
        simp [h0]
      · simp at h1

/-- A subject made of characters of the class only is offered whole first. -/
theorem greedy_all (cls : Char → Bool) : ∀ (s : List Char) (least : Nat),
    (∀ c ∈ s, cls c = true) → least ≤ s.length →
    ∃ l, greedy cls least s = (s, []) :: l := by
  intro s
  induction s with
  | nil =>
    intro least _ hl
    have h0 : least = 0 := by simpa using hl
    exact ⟨[], by simp [greedy, h0]⟩
  | cons c cs ih =>
    intro least hall hl
    obtain ⟨l, hl2⟩ := ih (least - 1) (fun x hx => hall x (List.mem_cons_of_mem _ hx))
      (by simp only [List.length_cons] at hl; omega)
    refine ⟨l.map (fun tr => (c :: tr.1, tr.2)) ++
      (if least = 0 then [([], c :: cs)] else []), ?_⟩
    unfold greedy
    rw [if_pos (hall c (List.mem_cons_self _ _)), hl2]
    rfl

theorem mem_matchPath (s p : List Char) (h : p ∈ matchPath s) :
    (∃ q, p = '/' :: q ∧ '\n' ∉ q) ∧ '/' ∈ s := by
  unfold matchPath at h
  split at h
  · obtain ⟨⟨t, r⟩, hmem, heq⟩ := List.mem_filterMap.1 h
    split at heq
    · simp only [Option.some.injEq] at heq
      subst heq
      obtain ⟨_, _, hall⟩ := mem_greedy _ _ _ _ _ hmem
      refine ⟨⟨t, rfl, ?_⟩, by simp⟩
      intro hn
      simpa using hall _ hn
    · simp at heq
  · simp at h

theorem mem_matchColonPath (s p : List Char) (h : p ∈ matchColonPath s) :
    (∃ q, p = '/' :: q ∧ '\n' ∉ q) ∧ '/' ∈ s := by
  unfold matchColonPath at h
  rcases List.mem_append.1 h with h1 | h1
  · split at h1
    · obtain ⟨hp, hs⟩ := mem_matchPath _ _ h1
      exact ⟨hp, List.mem_cons_of_mem _ hs⟩
    · simp at h1
  · exact mem_matchPath _ _ h1

theorem mem_matchPortOnward (s d p : List Char) (h : (d, p) ∈ matchPortOnward s) :
    (∃ q, p = '/' :: q ∧ '\n' ∉ q) ∧ '/' ∈ s ∧ ∀ c ∈ d, c.isDigit = true := by
  unfold matchPortOnward at h
  rcases List.mem_append.1 h with h1 | h1
  · split at h1
    · obtain ⟨⟨t, r⟩, hmem, hin⟩ := List.mem_flatMap.1 h1
      obtain ⟨p', hp', heq⟩ := List.mem_map.1 hin
      simp only [Prod.mk.injEq] at heq
      obtain ⟨rfl, rfl⟩ := heq
      obtain ⟨e, _, hall⟩ := mem_greedy _ _ _ _ _ hmem
      obtain ⟨hp, hs⟩ := mem_matchColonPath _ _ hp'
      refine ⟨hp, ?_, hall⟩
      rw [← e]
      exact List.mem_cons_of_mem _ (List.mem_append_right _ hs)
    · simp at h1
  · obtain ⟨p', hp', heq⟩ := List.mem_map.1 h1
    simp only [Prod.mk.injEq] at heq
    obtain ⟨rfl, rfl⟩ := heq
    obtain ⟨hp, hs⟩ := mem_matchColonPath _ _ hp'
    exact ⟨hp, hs, by simp⟩

theorem mem_matchHostOnward (s : List Char) (m : RemoteMatch) (h : m ∈ matchHostOnward s) :
    m.WellFormed ∧ '/' ∈ s := by
  unfold matchHostOnward at h
  obtain ⟨⟨t, r⟩, hmem, hin⟩ := List.mem_flatMap.1 h
  obtain ⟨⟨d, p⟩, hdp, heq⟩ := List.mem_map.1 hin
  subst heq
  obtain ⟨e, hl, hall⟩ := mem_greedy _ _ _ _ _ hmem
  obtain ⟨hp, hs, hd⟩ := mem_matchPortOnward _ _ _ hdp
  refine ⟨⟨hp, ?_, ?_, hd⟩, ?_⟩
  · intro hnil
    simp only at hnil
    rw [hnil] at hl
    simp at hl
  · intro c hc
    have := hall c hc
    simpa using this
  · rw [← e]
    exact List.mem_append_right _ hs

theorem mem_matchUserOnward (s : List Char) (m : RemoteMatch) (h : m ∈ matchUserOnward s) :
    m.WellFormed ∧ '/' ∈ s := by
  unfold matchUserOnward at h
  rcases List.mem_append.1 h with h1 | h1
  · obtain ⟨⟨t, r⟩, hmem, hin⟩ := List.mem_flatMap.1 h1
    obtain ⟨e, _, _⟩ := mem_greedy _ _ _ _ _ hmem
    split at hin
    · rename_i rest hr
      obtain ⟨m', hm', heq⟩ := List.mem_map.1 hin
      subst heq
      obtain ⟨hw, hs⟩ := mem_matchHostOnward _ _ hm'
      refine ⟨hw, ?_⟩
      rw [← e]
      simp only at hr
      rw [hr]
      exact List.mem_append_right _ (List.mem_cons_of_mem _ hs)
    · simp at hin
  · exact mem_matchHostOnward _ _ h1

theorem mem_remoteMatches (s : List Char) (m : RemoteMatch) (h : m ∈ remoteMatches s) :
    m.WellFormed ∧ '/' ∈ s := by
  unfold remoteMatches at h
  rcases List.mem_append.1 h with h1 | h1
  · obtain ⟨⟨t, r⟩, hmem, hin⟩ := List.mem_flatMap.1 h1
    obtain ⟨e, _, _⟩ := mem_greedy _ _ _ _ _ hmem
    split at hin
    · rename_i rest hr
      obtain ⟨m', hm', heq⟩ := List.mem_map.1 hin
      subst heq
      obtain ⟨hw, hs⟩ := mem_matchUserOnward _ _ hm'
      refine ⟨hw, ?_⟩
      rw [← e]
      simp only at hr
      rw [hr]
      simp
    · simp at hin
  · exact mem_matchUserOnward _ _ h1

/-- What the pattern reports is well formed. -/
theorem remotePatternMatch_wellFormed (remote : List Char) (m : RemoteMatch)
    (h : remotePatternMatch remote = some m) : m.WellFormed :=
  (mem_remoteMatches remote m (List.mem_of_mem_head? (by rw [remotePatternMatch] at h; simp [h]))).1

/-- From the user group on, nothing matches a subject without `/`. -/
theorem matchUserOnward_eq_nil (s : List Char) (h : '/' ∉ s) : matchUserOnward s = [] := by
  cases hm : matchUserOnward s with
  | nil => rfl
  | cons m l =>
    have := (mem_matchUserOnward s m (by rw [hm]; exact List.mem_cons_self _ _)).2
    exact absurd this h

theorem matchHostOnward_eq_nil (s : List Char) (h : '/' ∉ s) : matchHostOnward s = [] := by
  cases hm : matchHostOnward s with
  | nil => rfl
  | cons m l =>
    have := (mem_matchHostOnward s m (by rw [hm]; exact List.mem_cons_self _ _)).2
    exact absurd this h

/-- The user group finds nothing when no `@` of the subject has a `/`
somewhere after it. -/
theorem userGroup_eq_nil (s : List Char)
    (h : ∀ t r, t ++ '@' :: r = s → '/' ∉ r) :
    (greedy (fun c => c ≠ '@') 1 s).flatMap
      (fun ur =>
        match ur.2 with
        | '@' :: rest => (matchHostOnward rest).map (fun m => { m with user := ur.1 })
        | _ => []) = [] := by
  rw [List.flatMap_eq_nil_iff]
  intro ⟨t, r⟩ hmem
  obtain ⟨e, _, _⟩ := mem_greedy _ _ _ _ _ hmem
  split
  · rename_i rest hr
    simp only at hr
    rw [matchHostOnward_eq_nil rest (h t rest (by rw [← hr, e])), List.map_nil]
  · rfl

theorem mem_of_append_at (pre : List Char) (hpre : '@' ∉ pre) : ∀ (t r rest : List Char),
    t ++ '@' :: r = pre ++ rest → ∀ c ∈ r, c ∈ rest := by
  induction pre with
  | nil =>
    intro t r rest e c hc
    rw [List.nil_append] at e
    rw [← e]
    exact List.mem_append_right _ (List.mem_cons_of_mem _ hc)
  | cons p ps ih =>
    intro t r rest e c hc
    cases t with
    | nil =>
      simp only [List.nil_append, List.cons_append, List.cons.injEq] at e
      exact absurd (e.1 ▸ List.mem_cons_self _ _) hpre
    | cons a t =>
      simp only [List.cons_append, List.cons.injEq] at e
      exact ih (fun hm => hpre (List.mem_cons_of_mem _ hm)) t r rest e.2 c hc

theorem remotePatternMatch_ssh_noPath (rest : List Char) (hslash : '/' ∉ rest)
    (hnl : '\n' ∉ rest) :
    remotePatternMatch ('s' :: 's' :: 'h' :: ':' :: '/' :: '/' :: rest) =
      some { protocol := [], user := [], host := "ssh".toList, port := [],
             path := '/' :: '/' :: rest } := by
  obtain ⟨l, hl⟩ := greedy_all (fun c => c ≠ '\n') ('/' :: rest) 0
    (by
      intro c hc
      rcases List.mem_cons.1 hc with rfl | hc
      · decide
      · have : c ≠ '\n' := fun e => hnl (e ▸ hc)
        simpa using this) (by simp)
  have hP : (greedy (fun c => decide (c ≠ ':')) 1 ('s' :: 's' :: 'h' :: ':' :: '/' :: '/' :: rest)) =
      [(['s','s','h'], ':' :: '/' :: '/' :: rest), (['s','s'], 'h' :: ':' :: '/' :: '/' :: rest),
       (['s'], 's' :: 'h' :: ':' :: '/' :: '/' :: rest)] := by
    simp [greedy]
  have hH : (greedy (fun c => c ≠ ':' && c ≠ '/') 1 ('s' :: 's' :: 'h' :: ':' :: '/' :: '/' :: rest)) =
      [(['s','s','h'], ':' :: '/' :: '/' :: rest), (['s','s'], 'h' :: ':' :: '/' :: '/' :: rest),
       (['s'], 's' :: 'h' :: ':' :: '/' :: '/' :: rest)] := by
    simp [greedy]
  have hU := userGroup_eq_nil ('s' :: 's' :: 'h' :: ':' :: '/' :: '/' :: rest)
    (fun t r e hr => hslash
      (mem_of_append_at ['s', 's', 'h', ':', '/', '/'] (by decide) t r rest e _ hr))
  have hD : greedy Char.isDigit 1 ('/' :: '/' :: rest) = [] := by
    simp [greedy, show Char.isDigit '/' = false by decide]
  unfold remotePatternMatch remoteMatches
  rw [hP]
  simp only [List.flatMap_cons, List.flatMap_nil, matchUserOnward_eq_nil rest hslash, List.map_nil,
    List.nil_append, List.append_nil]
  unfold matchUserOnward
  rw [hU, List.nil_append]
  unfold matchHostOnward
  rw [hH]
  simp only [List.flatMap_cons]
  unfold matchPortOnward
  simp only [hD, List.flatMap_nil, List.nil_append]
  unfold matchColonPath
  simp only
  unfold matchPath
  simp only [hl]
  simp [atDollar]

/-! ## Basic facts about the operations -/

theorem lastIndexOf_lt (ch : Char) : ∀ (s : List Char) (i : Nat),
    lastIndexOf ch s = some i → i < s.length := by
  intro s
  induction s with
  | nil => intro i h; simp [lastIndexOf] at h
  | cons c cs ih =>
    intro i h
    unfold lastIndexOf at h
    cases hcs : lastIndexOf ch cs with
    | some j =>
      rw [hcs] at h
      simp only [Option.some.injEq] at h
      have := ih j hcs
      simp only [List.length_cons]
      omega
    | none =>
      rw [hcs] at h
      by_cases hc : c = ch
      · simp [hc] at h
        simp [← h]
      · simp [hc] at h

theorem lastIndexOf_eq_none_iff (ch : Char) (s : List Char) :
    lastIndexOf ch s = none ↔ ch ∉ s := by
  induction s with
  | nil => simp [lastIndexOf]
  | cons c cs ih =>
    unfold lastIndexOf
    cases hcs : lastIndexOf ch cs with
    | some j =>
      have : ¬ (ch ∉ cs) := fun hn => by simp [ih.2 hn] at hcs
      simp only [List.mem_cons, not_or]
      constructor
      · intro h; simp at h
      · intro h; exact absurd h.2 this
    | none =>
      have hn := ih.1 hcs
      by_cases hc : c = ch
      · simp [hc]
      · have hc2 : ¬ ch = c := fun e => hc e.symm
        simp [hc, hc2, hn]

theorem ascendPath_fst (s : GerritServer) :
    s.ascendPath.1 = true ↔ '/' ∈ s.rootPath := by
  unfold GerritServer.ascendPath
  cases hl : lastIndexOf '/' s.rootPath with
  | none => simpa using (lastIndexOf_eq_none_iff '/' s.rootPath).1 hl
  | some i =>
    have : ¬ ('/' ∉ s.rootPath) := fun hn => by
      simp [(lastIndexOf_eq_none_iff '/' s.rootPath).2 hn] at hl
    simpa using this

theorem ascendPath_length (s : GerritServer) (ha : s.ascendPath.1 = true) :
    s.ascendPath.2.rootPath.length < s.rootPath.length := by
  unfold GerritServer.ascendPath at ha ⊢
  cases hl : lastIndexOf '/' s.rootPath with
  | none => simp [hl] at ha
  | some i =>
    have := lastIndexOf_lt '/' s.rootPath i hl
    simp only [List.length_take]
    omega

/-- What `ascendPath` leaves alone: everything but `rootPath`. -/
theorem ascendPath_frame (s : GerritServer) :
    s.ascendPath.2 = { s with rootPath := s.ascendPath.2.rootPath } := by
  unfold GerritServer.ascendPath
  cases lastIndexOf '/' s.rootPath <;> rfl

/-- What a probe leaves alone: everything but `user.fullName`. -/
theorem testConnection_server {σ : Type} (h : Host σ) (r : Run σ) :
    (testConnection h r).2.server =
      { r.server with user := { r.server.user with
          fullName := (testConnection h r).2.server.user.fullName } } := by
  unfold testConnection
  simp only
  split
  · split <;> rfl
  · split <;> rfl

/-- A probe appends exactly one event, the probe itself. -/
theorem testConnection_trace {σ : Type} (h : Host σ) (r : Run σ) :
    (testConnection h r).2.trace =
      r.trace ++ [Event.probe r.server.curlBinary
        (curlArguments ++ [r.server.restUrl ++ accountUrlC])] := by
  unfold testConnection
  simp only
  split
  · split <;> rfl
  · split <;> rfl

theorem testConnection_rootPath {σ : Type} (h : Host σ) (r : Run σ) :
    (testConnection h r).2.server.rootPath = r.server.rootPath := by
  rw [testConnection_server]

/-- The bound of `resolveRoot` is never used up: with more probes allowed
than `rootPath` has characters, the loop returns. -/
theorem resolveRootLoop_isSome {σ : Type} (h : Host σ) : ∀ (fuel : Nat) (r : Run σ),
    r.server.rootPath.length < fuel → (resolveRootLoop h fuel r).isSome = true := by
  intro fuel
  induction fuel with
  | zero => intro r hr; omega
  | succ n ih =>
    intro r hr
    unfold resolveRootLoop
    simp only
    split
    · rfl
    · split
      · rfl
      · split
        · split
          · rfl
          · rename_i ha
            simp only [Bool.not_eq_true, Bool.not_eq_false_eq_eq_true] at ha
            apply ih
            have h1 := ascendPath_length _ (by simpa using ha)
            rw [testConnection_rootPath] at h1
            simp only
            omega
        · rfl

/-- More allowed probes do not change what the loop returns. -/
theorem resolveRootLoop_mono {σ : Type} (h : Host σ) : ∀ (fuel : Nat) (r : Run σ)
    (res : Bool × Run σ), resolveRootLoop h fuel r = some res →
    ∀ more, resolveRootLoop h (fuel + more) r = some res := by
  intro fuel
  induction fuel with
  | zero => intro r res hres; simp [resolveRootLoop] at hres
  | succ n ih =>
    intro r res hres more
    have e : n + 1 + more = (n + more) + 1 := by omega
    rw [e]
    unfold resolveRootLoop at hres ⊢
    simp only at hres ⊢
    split
    · rename_i h1; simpa [h1] using hres
    · rename_i h1
      split
      · rename_i h2; simpa [h1, h2] using hres
      · rename_i h2
        split
        · rename_i h3
          split
          · rename_i h4; simpa [h1, h2, h3, h4] using hres
          · rename_i h4
            simp only [h1, h2, h3, h4, if_true, if_false] at hres
            exact ih _ _ hres more
        · rename_i h3; simpa [h1, h2, h3] using hres

/-- The result of `resolveRoot` does not depend on the bound, once it is
above the length of `rootPath`. -/
theorem resolveRootLoop_eq_resolveRoot {σ : Type} (h : Host σ) (fuel : Nat) (r : Run σ)
    (hf : r.server.rootPath.length < fuel) :
    resolveRootLoop h fuel r = resolveRoot h r := by
  have h1 := resolveRootLoop_isSome h (r.server.rootPath.length + 1) r (by omega)
  obtain ⟨res, hres⟩ := Option.isSome_iff_exists.1 h1
  have h2 := resolveRootLoop_mono h _ r res hres (fuel - (r.server.rootPath.length + 1))
  have e : r.server.rootPath.length + 1 + (fuel - (r.server.rootPath.length + 1)) = fuel := by
    omega
  rw [e] at h2
  rw [h2, resolveRoot, hres]

theorem resolveRoot_isSome {σ : Type} (h : Host σ) (r : Run σ) :
    (resolveRoot h r).isSome = true :=
  resolveRootLoop_isSome h _ r (by omega)

/-- The index `lastIndexOf` reports holds the character, and the character
does not occur after it. -/
theorem lastIndexOf_spec (ch : Char) : ∀ (s : List Char) (i : Nat),
    lastIndexOf ch s = some i → s[i]? = some ch ∧ ch ∉ s.drop (i + 1) := by
  intro s
  induction s with
  | nil => intro i h; simp [lastIndexOf] at h
  | cons c cs ih =>
    intro i h
    unfold lastIndexOf at h
    cases hcs : lastIndexOf ch cs with
    | some j =>
      rw [hcs] at h
      simp only [Option.some.injEq] at h
      subst h
      simpa using ih j hcs
    | none =>
      rw [hcs] at h
      by_cases hc : c = ch
      · simp only [hc, if_true, Option.some.injEq] at h
        subst h
        have := (lastIndexOf_eq_none_iff ch cs).1 hcs
        simpa [hc] using this
      · simp [hc] at h

/-- Cutting a path before its last `/` removes at least that `/`. -/
theorem count_take_lastIndexOf (ch : Char) (s : List Char) (i : Nat)
    (h : lastIndexOf ch s = some i) : (s.take i).count ch + 1 = s.count ch := by
  obtain ⟨hget, hno⟩ := lastIndexOf_spec ch s i h
  have hlt := lastIndexOf_lt ch s i h
  have hsplit : s = s.take i ++ ch :: s.drop (i + 1) := by
    have h1 : s.drop i = ch :: s.drop (i + 1) := by
      rw [List.drop_eq_getElem_cons hlt]
      have : s[i] = ch := by
        have := List.getElem?_eq_getElem hlt
        rw [this] at hget
        simpa using hget
      rw [this]
    rw [← h1, List.take_append_drop]
  have hc : (s.drop (i + 1)).count ch = 0 := List.count_eq_zero.2 hno
  conv_rhs => rw [hsplit]
  rw [List.count_append, List.count_cons_self, hc]

/-- One turn of the loop of `resolveRoot`. -/
theorem resolveRoot_step {σ : Type} (h : Host σ) (r : Run σ) :
    resolveRoot h r =
      if (testConnection h r).1 = 200 then some (true, (testConnection h r).2)
      else if (testConnection h r).1 = 401 then
        some (setupAuthentication h (testConnection h r).2)
      else if (testConnection h r).1 = 404 then
        if (testConnection h r).2.server.ascendPath.1 = false then
          some (false, (testConnection h r).2)
        else resolveRoot h { (testConnection h r).2 with
          server := (testConnection h r).2.server.ascendPath.2 }
      else some (false, (testConnection h r).2) := by
  rw [resolveRoot]
  unfold resolveRootLoop
  simp only
  split
  · rfl
  · split
    · rfl
    · split
      · cases ha : (testConnection h r).2.server.ascendPath.1 with
        | false =>
          have e : (testConnection h r).2.server.ascendPath.2 = (testConnection h r).2.server := by
            unfold GerritServer.ascendPath at ha ⊢
            cases hl : lastIndexOf '/' (testConnection h r).2.server.rootPath with
            | none => rfl
            | some i => simp [hl] at ha
          simp [e]
        | true =>
          simp only [Bool.not_true, Bool.false_eq_true, if_false]
          apply resolveRootLoop_eq_resolveRoot
          have h1 := ascendPath_length _ ha
          rw [testConnection_rootPath] at h1
          exact h1
      · rfl

/-- What `setupAuthentication` leaves alone: everything but `authenticated`. -/
theorem setupAuthentication_server {σ : Type} (h : Host σ) (r : Run σ) :
    (setupAuthentication h r).2.server =
      { r.server with authenticated := (setupAuthentication h r).2.server.authenticated } := by
  unfold setupAuthentication
  simp only
  split <;> rfl

/-- Resolution never touches the kind, the host, the port, the user name or
the probing tool of the descriptor. -/
theorem resolveRootLoop_frame {σ : Type} (h : Host σ) : ∀ (fuel : Nat) (r : Run σ)
    (res : Bool × Run σ), resolveRootLoop h fuel r = some res →
    res.2.server.type = r.server.type ∧ res.2.server.host = r.server.host ∧
    res.2.server.port = r.server.port ∧
    res.2.server.user.userName = r.server.user.userName ∧
    res.2.server.curlBinary = r.server.curlBinary := by
  intro fuel
  induction fuel with
  | zero => intro r res hres; simp [resolveRootLoop] at hres
  | succ n ih =>
    intro r res hres
    have ht := testConnection_server h r
    unfold resolveRootLoop at hres
    simp only at hres
    split at hres
    · simp only [Option.some.injEq] at hres
      subst hres
      simp only
      rw [ht]
      simp
    · split at hres
      · simp only [Option.some.injEq] at hres
        subst hres
        rw [setupAuthentication_server, ht]
        simp
      · split at hres
        · split at hres
          · simp only [Option.some.injEq] at hres
            subst hres
            simp only
            rw [ascendPath_frame, ht]
            simp
          · have := ih _ _ hres
            simp only at this
            rw [ascendPath_frame, ht] at this
            simpa using this
        · simp only [Option.some.injEq] at hres
          subst hres
          rw [ht]
          simp

/-- Resolution only appends to the trace: what the first probe left is a
prefix of the trace at the end. -/
theorem resolveRootLoop_trace {σ : Type} (h : Host σ) : ∀ (fuel : Nat) (r : Run σ)
    (res : Bool × Run σ), resolveRootLoop h fuel r = some res →
    (testConnection h r).2.trace <+: res.2.trace := by
  intro fuel
  induction fuel with
  | zero => intro r res hres; simp [resolveRootLoop] at hres
  | succ n ih =>
    intro r res hres
    unfold resolveRootLoop at hres
    simp only at hres
    split at hres
    · simp only [Option.some.injEq] at hres
      subst hres
      exact List.prefix_refl _
    · split at hres
      · simp only [Option.some.injEq] at hres
        subst hres
        unfold setupAuthentication
        simp only
        split
        · exact List.prefix_append _ _
        · exact List.prefix_append _ _
      · split at hres
        · split at hres
          · simp only [Option.some.injEq] at hres
            subst hres
            exact List.prefix_refl _
          · have h1 := ih _ _ hres
            rw [testConnection_trace] at h1
            simp only at h1
            exact List.IsPrefix.trans (List.prefix_append _ _) h1
        · simp only [Option.some.injEq] at hres
          subst hres
          exact List.prefix_refl _

theorem digitChar_isDigit : ∀ k, k < 10 → (Nat.digitChar k).isDigit = true := by
  decide

theorem toDigitsCore_isDigit : ∀ (fuel n : Nat) (ds : List Char),
    (∀ c ∈ ds, c.isDigit = true) → ∀ c ∈ Nat.toDigitsCore 10 fuel n ds, c.isDigit = true := by
  intro fuel
  induction fuel with
  | zero => intro n ds hds c hc; exact hds c (by simpa [Nat.toDigitsCore] using hc)
  | succ k ih =>
    intro n ds hds c hc
    unfold Nat.toDigitsCore at hc
    simp only at hc
    have hd : ∀ x ∈ (n % 10).digitChar :: ds, x.isDigit = true := by
      intro x hx
      rcases List.mem_cons.1 hx with rfl | hx
      · exact digitChar_isDigit _ (Nat.mod_lt _ (by decide))
      · exact hds x hx
    split at hc
    · exact hd c hc
    · exact ih _ _ hd c hc

theorem number_isDigit (n : Nat) : ∀ c ∈ number n, c.isDigit = true :=
  toDigitsCore_isDigit _ _ [] (by simp)

/-- A remote that `fillFromRemote` accepts is one the pattern matches, and
the descriptor gets the captured host. -/
theorem fillFromRemote_true_host {σ : Type} (h : Host σ) (remote : List Char)
    (parameters : GerritParameters) (r r1 : Run σ)
    (hp : fillFromRemote h remote parameters r = some (true, r1)) :
    ∃ m, remotePatternMatch remote = some m ∧ r1.server.host = m.host := by
  unfold fillFromRemote at hp
  split at hp
  · simp at hp
  · split at hp
    · simp at hp
    · cases hm : remotePatternMatch remote with
      | none => simp [hm] at hp
      | some m =>
        refine ⟨m, rfl, ?_⟩
        simp only [hm] at hp
        split at hp
        · simp at hp
        · split at hp
          · simp at hp
          · split at hp
            · split at hp
              · simp at hp
              · generalize hR : resolveRoot h _ = o at hp
                cases o with
                | none => simp at hp
                | some res =>
                  have hf := resolveRootLoop_frame h _ _ res hR
                  simp only at hp
                  split at hp
                  · simp at hp
                  · simp only [Option.some.injEq, Prod.mk.injEq, true_and] at hp
                    rw [← hp, hf.2.1, ascendPath_frame]
            · simp only [Option.some.injEq, Prod.mk.injEq, true_and] at hp
              rw [← hp]

/-- A probing tool that finishes makes the probe return 200. -/
theorem testConnection_finished {σ : Type} (h : Host σ) (r : Run σ)
    (hf : (h.exec r.world r.server.curlBinary
      (curlArguments ++ [r.server.restUrl ++ accountUrlC])).1.finished = true) :
    (testConnection h r).1 = 200 := by
  unfold testConnection
  simp only [hf, if_true]
  split <;> rfl

/-! ## Equality of descriptors -/

/-- C1: `GerritServer::operator==` returns true exactly when the ports agree
or one of them is zero, the hosts are the same string, the users are the same
by `isSameAs` and the kinds are equal; two different non-zero ports make the
descriptors unequal. -/
theorem operatorEq_iff (a b : GerritServer) :
    (a.eq b = true ↔
      (a.port = 0 ∨ b.port = 0 ∨ a.port = b.port) ∧ a.host = b.host ∧
        a.user.isSameAs b.user = true ∧ a.type = b.type) ∧
    (a.port ≠ 0 → b.port ≠ 0 → a.port ≠ b.port → a.eq b = false) := by
  constructor
  · unfold GerritServer.eq
    by_cases h0 : a.port = 0
    · simp [h0, and_assoc]
    · by_cases h1 : b.port = 0
      · simp [h1, and_assoc]
      · by_cases h2 : a.port = b.port
        · simp [h2, and_assoc]
        · simp [h0, h1, h2]
  · intro h0 h1 h2
    simp [GerritServer.eq, h0, h1, h2]

/-- C1 at ports 29418 and 22 on the same host and user: unequal. -/
theorem operatorEq_iff_witness :
    (sampleServer 29418 "alice" "").eq (sampleServer 22 "alice" "") = false :=
  (operatorEq_iff (sampleServer 29418 "alice" "") (sampleServer 22 "alice" "")).2
    (by decide) (by decide) (by decide)

/-- C2 fails for a user with no name at all: two descriptors with the same
host, the same (empty) user and the same kind, ports 0 and 29418, are not
equal. -/
theorem zeroPort_anonymous_unequal :
    (sampleServer 0 "" "").host = (sampleServer 29418 "" "").host ∧
    (sampleServer 0 "" "").user = (sampleServer 29418 "" "").user ∧
    (sampleServer 0 "" "").type = (sampleServer 29418 "" "").type ∧
    (sampleServer 0 "" "").port = 0 ∧ (sampleServer 29418 "" "").port = 29418 ∧
    (sampleServer 0 "" "").eq (sampleServer 29418 "" "") = false := by
  decide

/-- C2, amended: two descriptors with the same host, the same user and the
same kind, one with port 0 and the other with port 29418, are equal exactly
when the user has a non-empty userName or a non-empty fullName. -/
theorem zeroPort_equal_iff (a b : GerritServer) (hhost : a.host = b.host)
    (huser : a.user = b.user) (htype : a.type = b.type) (ha : a.port = 0)
    (_hb : b.port = 29418) :
    a.eq b = true ↔ (a.user.userName ≠ [] ∨ a.user.fullName ≠ []) := by
  unfold GerritServer.eq GerritUser.isSameAs
  rw [← huser]
  by_cases hu : a.user.userName = [] <;> by_cases hf : a.user.fullName = [] <;>
    simp [ha, hhost, htype, hu, hf]

/-- C2, amended, at `alice@example.org`, ports 0 and 29418: equal. -/
theorem zeroPort_equal_iff_witness :
    (sampleServer 0 "alice" "").eq (sampleServer 29418 "alice" "") = true :=
  (zeroPort_equal_iff (sampleServer 0 "alice" "") (sampleServer 29418 "alice" "")
    (by decide) (by decide) (by decide) (by decide) (by decide)).2 (by decide)

/-- C3: `isSameAs` compares the userNames when both are non-empty, otherwise
the fullNames when both are non-empty, and is false otherwise. -/
theorem isSameAs_cases (a b : GerritUser) :
    (a.userName ≠ [] ∧ b.userName ≠ [] →
      a.isSameAs b = decide (a.userName = b.userName)) ∧
    (¬ (a.userName ≠ [] ∧ b.userName ≠ []) → a.fullName ≠ [] ∧ b.fullName ≠ [] →
      a.isSameAs b = decide (a.fullName = b.fullName)) ∧
    (¬ (a.userName ≠ [] ∧ b.userName ≠ []) → ¬ (a.fullName ≠ [] ∧ b.fullName ≠ []) →
      a.isSameAs b = false) := by
  unfold GerritUser.isSameAs
  by_cases hu : a.userName = [] <;> by_cases hv : b.userName = [] <;>
    by_cases hf : a.fullName = [] <;> by_cases hg : b.fullName = [] <;>
    by_cases hn : a.userName = b.userName <;> by_cases hm : a.fullName = b.fullName <;>
    simp [hu, hv, hf, hg, hn, hm]

/-- C3 at two users with different userNames and the same fullName: the
userNames decide, the users differ. -/
theorem isSameAs_cases_witness :
    GerritUser.isSameAs ⟨"alice".toList, "A".toList⟩ ⟨"bob".toList, "A".toList⟩ =
      decide ("alice".toList = "bob".toList) :=
  (isSameAs_cases ⟨"alice".toList, "A".toList⟩ ⟨"bob".toList, "A".toList⟩).1
    ⟨by decide, by decide⟩

/-! ## Parsing of remotes -/

/-- C5: an empty remote, a remote that begins with `/` or `.`, and on a
Windows host a remote whose second character is `:`, is not applicable:
`fillFromRemote` returns false for all parameters and leaves the descriptor,
the world and the trace as they were (no probe). -/
theorem fillFromRemote_local {σ : Type} (h : Host σ) (remote : List Char)
    (parameters : GerritParameters) (r : Run σ)
    (hlocal : remote = [] ∨ remote.head? = some '/' ∨ remote.head? = some '.' ∨
      (h.isWindowsHost = true ∧ remote[1]? = some ':')) :
    fillFromRemote h remote parameters r = some (false, r) := by
  unfold fillFromRemote
  rcases hlocal with h1 | h1 | h1 | ⟨h1, h2⟩
  · simp [h1]
  · simp [h1]
  · simp [h1]
  · simp [h1, h2]

/-- C5 on a Windows host at the remote `C:/git/repo`. -/
theorem fillFromRemote_local_witness :
    fillFromRemote (scriptedHost true (fun _ => okResponse) true true) "C:/git/repo".toList
      sampleParameters freshRun = some (false, freshRun) :=
  fillFromRemote_local (scriptedHost true (fun _ => okResponse) true true) "C:/git/repo".toList
    sampleParameters freshRun (Or.inr (Or.inr (Or.inr ⟨by decide, by decide⟩)))

/-- C6 fails when `github.com` is the host the remote shows but not the host
the pattern captures. `ssh://git@github.com` has no path, so the pattern takes
`ssh` as the host and `//git@github.com` as the path: the remote is accepted
with kind Ssh. In `https://github.com/a@b/c` the user group takes
`github.com/a`, the host is `b`, and the remote is probed and accepted with
kind Https. -/
theorem fillFromRemote_github_accepted :
    fillSummary (fillFromRemote (scriptedHost false (fun _ => okResponse) true true)
      "ssh://git@github.com".toList sampleParameters freshRun) =
        some (true, HostType.Ssh, "ssh".toList) ∧
    (fillFromRemote (scriptedHost false (fun _ => okResponse) true true)
        "https://github.com/a@b/c".toList sampleParameters freshRun).map
      (fun x => (x.1, x.2.server.type, x.2.server.host, x.2.server.user.userName, x.2.trace)) =
      some (true, HostType.Https, "b".toList, "github.com/a".toList,
        [Event.probe "/usr/bin/curl".toList
          (curlArguments ++ ["https://github.com/a@b/accounts/self".toList])]) := by
  decide

/-- C6, amended: a remote that the pattern does not match, or for which the
host the pattern captures contains `github.com`, is not applicable, whatever
the other captures, the parameters and the surroundings: the result is false,
and nothing was asked of the world. -/
theorem fillFromRemote_github {σ : Type} (h : Host σ) (remote : List Char)
    (parameters : GerritParameters) (r : Run σ)
    (hgithub : ∀ m, remotePatternMatch remote = some m →
      contains m.host "github.com".toList = true) :
    ∃ r', fillFromRemote h remote parameters r = some (false, r') ∧
      r'.trace = r.trace ∧ r'.world = r.world := by
  unfold fillFromRemote
  split
  · exact ⟨r, rfl, rfl, rfl⟩
  · split
    · exact ⟨r, rfl, rfl, rfl⟩
    · cases hm : remotePatternMatch remote with
      | none => exact ⟨r, rfl, rfl, rfl⟩
      | some m =>
        simp only
        split
        · exact ⟨r, rfl, rfl, rfl⟩
        · simp only [hgithub m hm, if_true]
          exact ⟨_, rfl, rfl, rfl⟩

/-- C6, amended, at `https://alice@github.com:443/qt/qtbase`, where the
pattern captures the host `github.com`: not applicable. -/
theorem fillFromRemote_github_witness :
    ∃ r', fillFromRemote (scriptedHost false (fun _ => okResponse) true true)
        "https://alice@github.com:443/qt/qtbase".toList sampleParameters freshRun =
          some (false, r') ∧
      r'.trace = freshRun.trace ∧ r'.world = freshRun.world :=
  fillFromRemote_github (scriptedHost false (fun _ => okResponse) true true)
    "https://alice@github.com:443/qt/qtbase".toList sampleParameters freshRun
    (fun m hm => by
      have e : remotePatternMatch "https://alice@github.com:443/qt/qtbase".toList =
          some ⟨"https".toList, "alice".toList, "github.com".toList, "443".toList,
            "/qt/qtbase".toList⟩ := by decide
      rw [e] at hm
      rw [← Option.some.inj hm]
      decide)

/-- The remote `git@github.com:qt/qtbase.git`, which has no `/` right after
its colon, is not matched by the pattern, and is not applicable. -/
theorem fillFromRemote_github_scp :
    remotePatternMatch "git@github.com:qt/qtbase.git".toList = none ∧
    fillFromRemote (scriptedHost false (fun _ => okResponse) true true)
      "git@github.com:qt/qtbase.git".toList sampleParameters freshRun =
        some (false, freshRun) := by
  decide

/-- C7 fails for a remote written with a protocol and no path: in
`git://example.org` the pattern cannot match with `git` as the protocol, and
matches with `git` as the host and `//example.org` as the path, so the remote
is accepted with kind Ssh. -/
theorem fillFromRemote_git_accepted :
    fillSummary (fillFromRemote (scriptedHost false (fun _ => okResponse) true true)
      "git://example.org".toList sampleParameters freshRun) =
        some (true, HostType.Ssh, "git".toList) := by
  decide

/-- C7, amended: for a remote that is not skipped as local and that the
pattern matches, the captured protocol decides the kind: `https` gives
Https, `http` gives Http, an empty capture or `ssh` gives Ssh (the kind the
descriptor is left with, whatever `fillFromRemote` then returns), and any
other captured protocol makes `fillFromRemote` return false with the
descriptor untouched. -/
theorem fillFromRemote_protocol {σ : Type} (h : Host σ) (remote : List Char)
    (parameters : GerritParameters) (r : Run σ) (m : RemoteMatch)
    (hnotlocal : (remote.isEmpty || remote.head? == some '/' || remote.head? == some '.') = false)
    (hnotdrive : (h.isWindowsHost && remote[1]? == some ':') = false)
    (hm : remotePatternMatch remote = some m) :
    (m.protocol = "https".toList →
      ∃ b r', fillFromRemote h remote parameters r = some (b, r') ∧
        r'.server.type = HostType.Https) ∧
    (m.protocol = "http".toList →
      ∃ b r', fillFromRemote h remote parameters r = some (b, r') ∧
        r'.server.type = HostType.Http) ∧
    (m.protocol = [] ∨ m.protocol = "ssh".toList →
      ∃ b r', fillFromRemote h remote parameters r = some (b, r') ∧
        r'.server.type = HostType.Ssh) ∧
    (m.protocol ≠ "https".toList → m.protocol ≠ "http".toList → m.protocol ≠ [] →
      m.protocol ≠ "ssh".toList → fillFromRemote h remote parameters r = some (false, r)) := by
  have key : ∀ ty : HostType,
      (if m.protocol = "https".toList then some HostType.Https
        else if m.protocol = "http".toList then some HostType.Http
        else if (m.protocol.isEmpty || decide (m.protocol = "ssh".toList)) = true
          then some HostType.Ssh
        else none) = some ty →
      ∃ b r', fillFromRemote h remote parameters r = some (b, r') ∧ r'.server.type = ty := by
    intro ty hty
    unfold fillFromRemote
    simp only [hnotlocal, hnotdrive, hm, hty, Bool.false_eq_true, if_false]
    split
    · exact ⟨_, _, rfl, rfl⟩
    · split
      · split
        · exact ⟨_, _, rfl, rfl⟩
        · generalize hR : resolveRoot h _ = o
          cases o with
          | none =>
            have hsome := hR ▸ resolveRoot_isSome h _
            simp at hsome
          | some res =>
            have hf := resolveRootLoop_frame h _ _ res hR
            simp only
            split
            · refine ⟨_, _, rfl, ?_⟩
              rw [hf.1, ascendPath_frame]
            · refine ⟨_, _, rfl, ?_⟩
              rw [hf.1, ascendPath_frame]
      · exact ⟨_, _, rfl, rfl⟩
  refine ⟨fun hp => key _ (by rw [hp]; rfl), fun hp => key _ (by rw [hp]; rfl),
    fun hp => key _ ?_, ?_⟩
  · rcases hp with hp | hp
    · rw [hp]; rfl
    · rw [hp]; rfl
  · intro h1 h2 h3 h4
    unfold fillFromRemote
    simp only [hnotlocal, hnotdrive, hm, Bool.false_eq_true, if_false]
    rw [if_neg h1, if_neg h2, if_neg (by simpa [h3] using h4)]

/-- C7, amended, at `ftp://example.org/pub/repo`: the captured protocol is
`ftp`, and the remote is not applicable. -/
theorem fillFromRemote_protocol_witness :
    fillFromRemote (scriptedHost false (fun _ => okResponse) true true)
      "ftp://example.org/pub/repo".toList sampleParameters freshRun = some (false, freshRun) :=
  (fillFromRemote_protocol (scriptedHost false (fun _ => okResponse) true true)
    "ftp://example.org/pub/repo".toList sampleParameters freshRun
    ⟨"ftp".toList, [], "example.org".toList, [], "/pub/repo".toList⟩
    (by decide) (by decide) (by decide)).2.2.2 (by decide) (by decide) (by decide) (by decide)

/-! ## Building a URL and parsing it again -/

/-- C4 fails: `ssh://alice@example.org:29418/repo` is parsed as Ssh; the URL
built from the descriptor is `ssh://alice@example.org:29418`, without a path;
parsing that URL succeeds, with host `ssh`, user `bob` (the fallback) and
port 0, and the two descriptors are not equal. -/
theorem url_roundTrip_fails :
    fillFromRemote (scriptedHost false (fun _ => okResponse) true true)
        "ssh://alice@example.org:29418/repo".toList sampleParameters freshRun =
      some (true, { freshRun with server := sampleServer 29418 "alice" "" }) ∧
    (sampleServer 29418 "alice" "").type = HostType.Ssh ∧
    (sampleServer 29418 "alice" "").url true = "ssh://alice@example.org:29418".toList ∧
    (fillFromRemote (scriptedHost false (fun _ => okResponse) true true)
        ((sampleServer 29418 "alice" "").url true) sampleParameters freshRun).map
      (fun y => (y.1, y.2.server.type, y.2.server.host, y.2.server.user.userName,
        y.2.server.port, (sampleServer 29418 "alice" "").eq y.2.server)) =
      some (true, HostType.Ssh, "ssh".toList, "bob".toList, 0, false) := by
  decide

/-- C4, amended: for a descriptor obtained by successfully parsing a remote
as Ssh, with no `/` and no line feed in its user name and no line feed in its
host, parsing the URL built by `url` again (same parameters, any descriptor
to fill) succeeds and gives the same kind, Ssh, but the host `ssh`, the port
0 and the fallback user name: the URL of an Ssh descriptor has no path, so
its `ssh` is read as the host. -/
theorem url_reparse_ssh {σ : Type} (h : Host σ) (remote : List Char)
    (parameters : GerritParameters) (r0 r1 : Run σ)
    (hparse : fillFromRemote h remote parameters r0 = some (true, r1))
    (hssh : r1.server.type = HostType.Ssh)
    (huser : '/' ∉ r1.server.user.userName ∧ '\n' ∉ r1.server.user.userName)
    (hhost : '\n' ∉ r1.server.host) (withHttpUser : Bool) (r : Run σ) :
    fillFromRemote h (r1.server.url withHttpUser) parameters r =
      some (true, { r with server := { r.server with
        type := HostType.Ssh,
        user := { r.server.user with userName := parameters.server.user.userName },
        host := "ssh".toList, port := 0 } }) := by
  obtain ⟨m, hm, hmhost⟩ := fillFromRemote_true_host h remote parameters r0 r1 hparse
  have hwf := (remotePatternMatch_wellFormed remote m hm).2.2.1
  have hhslash : '/' ∉ r1.server.host := by
    rw [hmhost]
    exact fun hc => (hwf _ hc).2 rfl
  have hnum : ∀ c ∈ number r1.server.port, c ≠ '/' ∧ c ≠ '\n' := by
    intro c hc
    have hd := number_isDigit _ c hc
    constructor
    · rintro rfl; exact absurd hd (by decide)
    · rintro rfl; exact absurd hd (by decide)
  obtain ⟨rest, hurl, hrs, hrn⟩ : ∃ rest, r1.server.url withHttpUser =
      's' :: 's' :: 'h' :: ':' :: '/' :: '/' :: rest ∧ '/' ∉ rest ∧ '\n' ∉ rest := by
    refine ⟨r1.server.hostArgument ++
      (if r1.server.port != 0 then ':' :: number r1.server.port else []), ?_, ?_, ?_⟩
    · unfold GerritServer.url
      simp only [hssh]
      by_cases hp0 : r1.server.port = 0 <;> simp [hp0]
    · unfold GerritServer.hostArgument
      intro hc
      rcases List.mem_append.1 hc with hc | hc
      · split at hc
        · exact hhslash hc
        · rcases List.mem_append.1 hc with hc | hc
          · exact huser.1 hc
          · rcases List.mem_cons.1 hc with hc | hc
            · exact absurd hc (by decide)
            · exact hhslash hc
      · split at hc
        · rcases List.mem_cons.1 hc with hc | hc
          · exact absurd hc (by decide)
          · exact (hnum _ hc).1 rfl
        · simp at hc
    · unfold GerritServer.hostArgument
      intro hc
      rcases List.mem_append.1 hc with hc | hc
      · split at hc
        · exact hhost hc
        · rcases List.mem_append.1 hc with hc | hc
          · exact huser.2 hc
          · rcases List.mem_cons.1 hc with hc | hc
            · exact absurd hc (by decide)
            · exact hhost hc
      · split at hc
        · rcases List.mem_cons.1 hc with hc | hc
          · exact absurd hc (by decide)
          · exact (hnum _ hc).2 rfl
        · simp at hc
  rw [hurl]
  unfold fillFromRemote
  rw [remotePatternMatch_ssh_noPath rest hrs hrn]
  have hg : contains ['s', 's', 'h'] ['g', 'i', 't', 'h', 'u', 'b', '.', 'c', 'o', 'm'] = false := by
    decide
  have hz : toUShort [] = 0 := by decide
  simp [hg, hz]

/-- C4, amended, on `ssh://alice@example.org:29418/repo`: parsing the URL of
the parsed descriptor gives a descriptor for the host `ssh`. -/
theorem url_reparse_ssh_witness :
    fillFromRemote (scriptedHost false (fun _ => okResponse) true true)
      ((sampleServer 29418 "alice" "").url true) sampleParameters freshRun =
      some (true, { freshRun with server := { freshRun.server with
        type := HostType.Ssh,
        user := { freshRun.server.user with userName := sampleParameters.server.user.userName },
        host := "ssh".toList, port := 0 } }) :=
  url_reparse_ssh (scriptedHost false (fun _ => okResponse) true true)
    "ssh://alice@example.org:29418/repo".toList sampleParameters freshRun
    { freshRun with server := sampleServer 29418 "alice" "" }
    (by decide) (by decide) ⟨by decide, by decide⟩ (by decide) true freshRun

/-! ## Resolution of the root path -/

/-- C8 fails: the first probe returns 401 and the dialog reports a completed
authentication; `resolveRoot` returns true with `authenticated = true` after
that one probe and the dialog, with no second probe, although a probe of the
descriptor it leaves would return 500. -/
theorem resolveRoot_401_no_second_probe :
    (testConnection (scriptedHost false challengedScript true true) (httpsRun "/review")).1 = 401 ∧
    (resolveRoot (scriptedHost false challengedScript true true) (httpsRun "/review")).map
        (fun x => (x.1, x.2.server.authenticated, x.2.trace)) =
      some (true, true,
        [Event.probe "/usr/bin/curl".toList
          (curlArguments ++ ["https://example.org/review/accounts/self".toList]),
         Event.authenticationDialog]) ∧
    (resolveRoot (scriptedHost false challengedScript true true) (httpsRun "/review")).map
        (fun x => (testConnection (scriptedHost false challengedScript true true) x.2).1) =
      some 500 := by
  decide

/-- C8, amended: when a probe in `resolveRoot` returns 401, the resolver runs
the authentication dialog once and returns its verdict at once, with no
further probe: true when the dialog was accepted, `authenticated` then being
what the dialog reports, and false with `authenticated` unchanged when it
was not. -/
theorem resolveRoot_401 {σ : Type} (h : Host σ) (r : Run σ)
    (h401 : (testConnection h r).1 = 401) :
    ∃ r', resolveRoot h r =
        some ((h.dialog (testConnection h r).2.world (testConnection h r).2.server).1.1, r') ∧
      r'.trace = r.trace ++
        [Event.probe r.server.curlBinary (curlArguments ++ [r.server.restUrl ++ accountUrlC]),
         Event.authenticationDialog] ∧
      r'.server.authenticated =
        (if (h.dialog (testConnection h r).2.world (testConnection h r).2.server).1.1
          then (h.dialog (testConnection h r).2.world (testConnection h r).2.server).1.2
          else r.server.authenticated) := by
  rw [resolveRoot_step, h401]
  simp only [show ¬ (401 = 200) by decide, if_false, if_true]
  have ht := testConnection_trace h r
  have hs := testConnection_server h r
  unfold setupAuthentication
  simp only
  cases hd : (h.dialog (testConnection h r).2.world (testConnection h r).2.server).1.1 with
  | false =>
    refine ⟨_, rfl, ?_, ?_⟩
    · simp [ht]
    · simp only [Bool.false_eq_true, if_false]
      rw [hs]
  | true =>
    refine ⟨_, rfl, ?_, ?_⟩
    · simp [ht]
    · simp

/-- C8, amended, on a tool that is asked for credentials, with a dialog that
is accepted anonymously: resolved after one probe, `authenticated = false`. -/
theorem resolveRoot_401_witness :
    ∃ r', resolveRoot (scriptedHost false challengedScript true false) (httpsRun "/review") =
        some (true, r') ∧
      r'.trace =
        [Event.probe "/usr/bin/curl".toList
          (curlArguments ++ ["https://example.org/review/accounts/self".toList]),
         Event.authenticationDialog] ∧
      r'.server.authenticated = false :=
  resolveRoot_401 (scriptedHost false challengedScript true false) (httpsRun "/review")
    (by decide)

/-- C10: when a probe in `resolveRoot` returns 404, a `rootPath` without `/`
makes resolution fail at once, with no further probe; a `rootPath` with a
`/` is cut just before its last `/`, and resolution goes on from there: its
next probe is made at the shorter path. -/
theorem resolveRoot_404 {σ : Type} (h : Host σ) (r : Run σ)
    (h404 : (testConnection h r).1 = 404) :
    ('/' ∉ r.server.rootPath →
      resolveRoot h r = some (false, (testConnection h r).2) ∧
      (testConnection h r).2.trace = r.trace ++
        [Event.probe r.server.curlBinary (curlArguments ++ [r.server.restUrl ++ accountUrlC])]) ∧
    (∀ i, lastIndexOf '/' r.server.rootPath = some i →
      resolveRoot h r = resolveRoot h { (testConnection h r).2 with
        server := { (testConnection h r).2.server with rootPath := r.server.rootPath.take i } } ∧
      ∃ res, resolveRoot h r = some res ∧
        r.trace ++
          [Event.probe r.server.curlBinary (curlArguments ++ [r.server.restUrl ++ accountUrlC]),
           Event.probe r.server.curlBinary (curlArguments ++
            [GerritServer.restUrl { r.server with rootPath := r.server.rootPath.take i } ++
              accountUrlC])] <+: res.2.trace) := by
  have hstep := resolveRoot_step h r
  simp only [h404, show ¬ (404 = 200) by decide, show ¬ (404 = 401) by decide, if_false,
    if_true] at hstep
  have hroot := testConnection_rootPath h r
  constructor
  · intro hno
    have ha : (testConnection h r).2.server.ascendPath.1 = false := by
      cases hb : (testConnection h r).2.server.ascendPath.1 with
      | false => rfl
      | true => exact absurd ((ascendPath_fst _).1 hb) (by rw [hroot]; exact hno)
    rw [hstep, if_pos ha]
    exact ⟨rfl, testConnection_trace h r⟩
  · intro i hi
    have hasc : (testConnection h r).2.server.ascendPath =
        (true, { (testConnection h r).2.server with rootPath := r.server.rootPath.take i }) := by
      unfold GerritServer.ascendPath
      rw [hroot, hi]
    have hnext : resolveRoot h r = resolveRoot h { (testConnection h r).2 with
        server := { (testConnection h r).2.server with rootPath := r.server.rootPath.take i } } := by
      rw [hstep, hasc]
      simp
    refine ⟨hnext, ?_⟩
    obtain ⟨res, hres⟩ := Option.isSome_iff_exists.1 (resolveRoot_isSome h r)
    refine ⟨res, hres, ?_⟩
    rw [hnext] at hres
    have hpre := resolveRootLoop_trace h _ _ res hres
    rw [testConnection_trace] at hpre
    simp only at hpre
    rw [testConnection_trace] at hpre
    have hs := testConnection_server h r
    have hurl : GerritServer.restUrl
        { (testConnection h r).2.server with rootPath := r.server.rootPath.take i } =
        GerritServer.restUrl { r.server with rootPath := r.server.rootPath.take i } := by
      rw [hs]
      rfl
    have hcurl : (testConnection h r).2.server.curlBinary = r.server.curlBinary := by
      rw [hs]
    rw [hurl, hcurl] at hpre
    simpa using hpre

/-- C10 on the remote `https://example.org/myrepo`: after the one ascend the
root path is empty, the probe there returns 404, and resolution fails with
that one probe. -/
theorem resolveRoot_404_witness :
    (fillFromRemote (scriptedHost false notFoundScript true true)
        "https://example.org/myrepo".toList sampleParameters freshRun).map
      (fun x => (x.1, x.2.server.rootPath, x.2.trace)) =
      some (false, [], [Event.probe "/usr/bin/curl".toList
        (curlArguments ++ ["https://bob@example.org/accounts/self".toList])]) ∧
    resolveRoot (scriptedHost false notFoundScript true true) (httpsRun "") =
      some (false, (testConnection (scriptedHost false notFoundScript true true) (httpsRun "")).2) ∧
    (testConnection (scriptedHost false notFoundScript true true) (httpsRun "")).2.trace =
      (httpsRun "").trace ++ [Event.probe (httpsRun "").server.curlBinary
        (curlArguments ++ [(httpsRun "").server.restUrl ++ accountUrlC])] :=
  ⟨by decide,
   (resolveRoot_404 (scriptedHost false notFoundScript true true) (httpsRun "")
     (by decide)).1 (by decide)⟩

/-- C9: for a remote that the pattern matches with protocol `http` or
`https` (not skipped as local, host without `github.com`) and a probing tool
that is set and exists, if the first probe (the probe of the descriptor as
parsing and the one ascend leave it) returns 200 then `fillFromRemote`
returns true after exactly that one probe, and `rootPath` is the captured
path cut just before its last `/`. -/
theorem fillFromRemote_first_probe_ok {σ : Type} (h : Host σ) (remote : List Char)
    (parameters : GerritParameters) (r : Run σ) (m : RemoteMatch)
    (hnotlocal : (remote.isEmpty || remote.head? == some '/' || remote.head? == some '.') = false)
    (hnotdrive : (h.isWindowsHost && remote[1]? == some ':') = false)
    (hm : remotePatternMatch remote = some m)
    (hproto : m.protocol = "https".toList ∨ m.protocol = "http".toList)
    (hgithub : contains m.host "github.com".toList = false)
    (hcurl : parameters.curl ≠ [] ∧ h.fileExists parameters.curl = true)
    (hfirst : (testConnection h { r with server := (GerritServer.ascendPath
        { r.server with
            type := if m.protocol = "https".toList then HostType.Https else HostType.Http,
            user := { r.server.user with
              userName := if m.user.isEmpty then parameters.server.user.userName else m.user },
            host := m.host, port := toUShort m.port, curlBinary := parameters.curl,
            rootPath := m.path }).2 }).1 = 200) :
    ∃ i r', lastIndexOf '/' m.path = some i ∧
      fillFromRemote h remote parameters r = some (true, r') ∧
      r'.server.rootPath = m.path.take i ∧
      ∃ arguments, r'.trace = r.trace ++ [Event.probe parameters.curl arguments] := by
  obtain ⟨⟨q, hq, _⟩, _⟩ := remotePatternMatch_wellFormed remote m hm
  cases hi : lastIndexOf '/' m.path with
  | none =>
    have := (lastIndexOf_eq_none_iff '/' m.path).1 hi
    rw [hq] at this
    simp at this
  | some i =>
    have key : ∀ ty : HostType, ty ≠ HostType.Ssh →
        (if m.protocol = "https".toList then some HostType.Https
          else if m.protocol = "http".toList then some HostType.Http
          else if (m.protocol.isEmpty || decide (m.protocol = "ssh".toList)) = true
            then some HostType.Ssh
          else none) = some ty →
        (if m.protocol = "https".toList then HostType.Https else HostType.Http) = ty →
        ∃ r', fillFromRemote h remote parameters r = some (true, r') ∧
          r'.server.rootPath = m.path.take i ∧
          ∃ arguments, r'.trace = r.trace ++ [Event.probe parameters.curl arguments] := by
      intro ty hne hty hty2
      rw [hty2] at hfirst
      have hne2 : (ty != HostType.Ssh) = true := by simpa using hne
      have hc : (parameters.curl.isEmpty || !h.fileExists parameters.curl) = false := by
        simp [hcurl.1, hcurl.2]
      unfold fillFromRemote
      simp only [hnotlocal, hnotdrive, hm, hty, hgithub, hne2, hc, Bool.false_eq_true,
        if_false, if_true]
      rw [resolveRoot_step, hfirst]
      simp only [if_true, Bool.not_true, Bool.false_eq_true, if_false]
      refine ⟨_, rfl, ?_, ?_⟩
      · rw [testConnection_rootPath]
        simp [GerritServer.ascendPath, hi]
      · rw [testConnection_trace, ascendPath_frame]
        exact ⟨_, rfl⟩
    rcases hproto with hp | hp
    · obtain ⟨r', h1, h2, h3⟩ := key HostType.Https (by decide) (by rw [hp]; rfl)
        (by rw [hp]; rfl)
      exact ⟨i, r', rfl, h1, h2, h3⟩
    · obtain ⟨r', h1, h2, h3⟩ := key HostType.Http (by decide) (by rw [hp]; rfl)
        (by rw [hp]; rfl)
      exact ⟨i, r', rfl, h1, h2, h3⟩

/-- C9 on the remote `https://user@example.org/review/myrepo` with a tool
that finishes: resolved after one probe, with root path `/review`. -/
theorem fillFromRemote_first_probe_ok_witness :
    ∃ i r', lastIndexOf '/' "/review/myrepo".toList = some i ∧
      fillFromRemote (scriptedHost false (fun _ => okResponse) true true)
        "https://user@example.org/review/myrepo".toList sampleParameters freshRun =
          some (true, r') ∧
      r'.server.rootPath = "/review/myrepo".toList.take i ∧
      ∃ arguments, r'.trace = freshRun.trace ++ [Event.probe sampleParameters.curl arguments] :=
  fillFromRemote_first_probe_ok (scriptedHost false (fun _ => okResponse) true true)
    "https://user@example.org/review/myrepo".toList sampleParameters freshRun
    ⟨"https".toList, "user".toList, "example.org".toList, [], "/review/myrepo".toList⟩
    (by decide) (by decide) (by decide) (Or.inl (by decide)) (by decide)
    ⟨by decide, by decide⟩ (by decide)

/-- The remote `https://user@example.org/review/myrepo` with a tool that
finishes, run: true, root path `/review`, one probe at
`https://user@example.org/review/accounts/self`. -/
theorem fillFromRemote_review_myrepo :
    (fillFromRemote (scriptedHost false (fun _ => okResponse) true true)
        "https://user@example.org/review/myrepo".toList sampleParameters freshRun).map
      (fun x => (x.1, x.2.server.rootPath, x.2.trace)) =
      some (true, "/review".toList, [Event.probe "/usr/bin/curl".toList
        (curlArguments ++ ["https://user@example.org/review/accounts/self".toList])]) := by
  decide

/-! ## URLs of Ssh descriptors -/

/-- C11: for an Ssh descriptor, `url` is `ssh://`, the host argument, and
`:` with the port when the port is not zero, for both values of
`withHttpUser`; `restUrl` is the same string; neither depends on `rootPath` or
`authenticated`. -/
theorem url_ssh (s : GerritServer) (hssh : s.type = HostType.Ssh) (withHttpUser : Bool) :
    s.url withHttpUser =
      "ssh://".toList ++ s.hostArgument ++ (if s.port ≠ 0 then ':' :: number s.port else []) ∧
    s.restUrl = s.url withHttpUser ∧
    ∀ (rootPath : List Char) (authenticated : Bool),
      GerritServer.url { s with rootPath := rootPath, authenticated := authenticated }
        withHttpUser = s.url withHttpUser ∧
      GerritServer.restUrl { s with rootPath := rootPath, authenticated := authenticated } =
        s.restUrl := by
  have hurl : ∀ (t : GerritServer) (w : Bool), t.type = HostType.Ssh →
      t.url w = "ssh://".toList ++ t.hostArgument ++
        (if t.port ≠ 0 then ':' :: number t.port else []) := by
    intro t w ht
    unfold GerritServer.url
    simp only [ht]
    by_cases hp : t.port = 0 <;> simp [hp]
  have hrest : ∀ t : GerritServer, t.type = HostType.Ssh → t.restUrl = t.url true := by
    intro t ht
    unfold GerritServer.restUrl
    simp [ht]
  refine ⟨hurl s withHttpUser hssh, ?_, ?_⟩
  · rw [hrest s hssh, hurl s true hssh, hurl s withHttpUser hssh]
  · intro rootPath authenticated
    constructor
    · rw [hurl _ withHttpUser (by simpa using hssh), hurl s withHttpUser hssh]
      rfl
    · rw [hrest _ (by simpa using hssh), hrest s hssh, hurl _ true (by simpa using hssh),
        hurl s true hssh]
      rfl

/-- C11 at `alice@example.org`, port 29418: the URL is
`ssh://alice@example.org:29418`. -/
theorem url_ssh_witness :
    (sampleServer 29418 "alice" "").url false =
      "ssh://".toList ++ (sampleServer 29418 "alice" "").hostArgument ++
        (if (sampleServer 29418 "alice" "").port ≠ 0
          then ':' :: number (sampleServer 29418 "alice" "").port else []) :=
  (url_ssh (sampleServer 29418 "alice" "") (by decide) false).1

/-! ## Equality of descriptors, continued -/

/-- C19: a descriptor is equal to itself exactly when its user has a
non-empty userName or a non-empty fullName; a descriptor whose user has both
names empty is unequal to every descriptor, on either side of `==`. -/
theorem operatorEq_self (a : GerritServer) :
    (a.eq a = true ↔ (a.user.userName ≠ [] ∨ a.user.fullName ≠ [])) ∧
    (a.user.userName = [] → a.user.fullName = [] →
      ∀ b : GerritServer, a.eq b = false ∧ b.eq a = false) := by
  constructor
  · unfold GerritServer.eq GerritUser.isSameAs
    by_cases hu : a.user.userName = [] <;> by_cases hf : a.user.fullName = [] <;>
      simp [hu, hf]
  · intro hu hf b
    unfold GerritServer.eq GerritUser.isSameAs
    simp [hu, hf]

/-- C19 at the default descriptor, whose user has no name: it is not equal
to the descriptor of `alice@example.org`, on either side. -/
theorem operatorEq_self_witness :
    defaultServer.eq (sampleServer 29418 "alice" "") = false ∧
      (sampleServer 29418 "alice" "").eq defaultServer = false :=
  (operatorEq_self defaultServer).2 (by decide) (by decide) (sampleServer 29418 "alice" "")

/-- C20: `operator==` and `isSameAs` are symmetric. -/
theorem operatorEq_symm (a b : GerritServer) (u v : GerritUser) :
    a.eq b = b.eq a ∧ u.isSameAs v = v.isSameAs u := by
  have hb : ∀ p q : List Char, (p == q) = (q == p) := by
    intro p q
    by_cases e : p = q
    · rw [e]
    · have e2 : ¬ q = p := fun x => e x.symm
      simp [e, e2]
  have hsame : ∀ x y : GerritUser, x.isSameAs y = y.isSameAs x := by
    intro x y
    unfold GerritUser.isSameAs
    rw [hb x.userName y.userName, hb x.fullName y.fullName]
    by_cases h1 : x.userName = [] <;> by_cases h2 : y.userName = [] <;>
      by_cases h3 : x.fullName = [] <;> by_cases h4 : y.fullName = [] <;>
      simp [h1, h2, h3, h4]
  refine ⟨?_, hsame u v⟩
  unfold GerritServer.eq
  rw [hsame a.user b.user, hb a.host b.host]
  have ht : (a.type == b.type) = (b.type == a.type) := by
    by_cases e : a.type = b.type
    · rw [e]
    · have e2 : ¬ b.type = a.type := fun x => e x.symm
      simp [e, e2]
  rw [ht]
  by_cases h1 : a.port = 0 <;> by_cases h2 : b.port = 0 <;>
    by_cases h3 : a.port = b.port
  · simp [h1, h2]
  · simp [h1, h2]
  · simp [h1, h2]
  · simp [h1, h2]
  · simp [h1, h2]
  · simp [h1, h2]
  · simp [h3]
  · have h3b : ¬ b.port = a.port := fun x => h3 x.symm
    simp [h1, h2, h3, h3b]

/-! ## Parsing of remotes, continued -/

/-- C12: when `fillFromRemote` accepts a remote and the descriptor has kind
Ssh, nothing was asked of the world (no probe, no dialog), and `rootPath`,
`authenticated`, the probing-tool path and the full name of the descriptor
are as they were. -/
theorem fillFromRemote_ssh_frame {σ : Type} (h : Host σ) (remote : List Char)
    (parameters : GerritParameters) (r r1 : Run σ)
    (hp : fillFromRemote h remote parameters r = some (true, r1))
    (hssh : r1.server.type = HostType.Ssh) :
    r1.trace = r.trace ∧ r1.world = r.world ∧
    r1.server.rootPath = r.server.rootPath ∧
    r1.server.authenticated = r.server.authenticated ∧
    r1.server.curlBinary = r.server.curlBinary ∧
    r1.server.user.fullName = r.server.user.fullName := by
  unfold fillFromRemote at hp
  split at hp
  · simp at hp
  · split at hp
    · simp at hp
    · cases hm : remotePatternMatch remote with
      | none => simp [hm] at hp
      | some m =>
        simp only [hm] at hp
        split at hp
        · simp at hp
        · split at hp
          · simp at hp
          · split at hp
            · rename_i ty _ _ hne
              split at hp
              · simp at hp
              · generalize hR : resolveRoot h _ = o at hp
                cases o with
                | none => simp at hp
                | some res =>
                  have hf := resolveRootLoop_frame h _ _ res hR
                  simp only at hp
                  split at hp
                  · simp at hp
                  · simp only [Option.some.injEq, Prod.mk.injEq, true_and] at hp
                    rw [← hp, hf.1, ascendPath_frame] at hssh
                    simp only at hssh
                    rw [hssh] at hne
                    simp at hne
            · simp only [Option.some.injEq, Prod.mk.injEq, true_and] at hp
              rw [← hp]
              exact ⟨rfl, rfl, rfl, rfl, rfl, rfl⟩

/-- C12 on `ssh://alice@example.org:29418/repo`: accepted as Ssh, with
nothing asked of the world. -/
theorem fillFromRemote_ssh_frame_witness :
    ({ freshRun with server := sampleServer 29418 "alice" "" } : Run Nat).trace = freshRun.trace ∧
    ({ freshRun with server := sampleServer 29418 "alice" "" } : Run Nat).world = freshRun.world ∧
    (sampleServer 29418 "alice" "").rootPath = freshRun.server.rootPath ∧
    (sampleServer 29418 "alice" "").authenticated = freshRun.server.authenticated ∧
    (sampleServer 29418 "alice" "").curlBinary = freshRun.server.curlBinary ∧
    (sampleServer 29418 "alice" "").user.fullName = freshRun.server.user.fullName :=
  fillFromRemote_ssh_frame (scriptedHost false notFoundScript false false)
    "ssh://alice@example.org:29418/repo".toList sampleParameters freshRun
    { freshRun with server := sampleServer 29418 "alice" "" } (by decide) (by decide)

/-- C13: for a remote that the pattern matches with protocol `http` or
`https`, a probing-tool path that is empty or names no existing file makes
`fillFromRemote` return false, with nothing asked of the world. -/
theorem fillFromRemote_no_tool {σ : Type} (h : Host σ) (remote : List Char)
    (parameters : GerritParameters) (r : Run σ) (m : RemoteMatch)
    (hm : remotePatternMatch remote = some m)
    (hproto : m.protocol = "https".toList ∨ m.protocol = "http".toList)
    (hcurl : parameters.curl = [] ∨ h.fileExists parameters.curl = false) :
    ∃ r', fillFromRemote h remote parameters r = some (false, r') ∧
      r'.trace = r.trace ∧ r'.world = r.world := by
  have hc : (parameters.curl.isEmpty || !h.fileExists parameters.curl) = true := by
    rcases hcurl with hc | hc <;> simp [hc]
  have hty : ∃ ty : HostType, ty ≠ HostType.Ssh ∧
      (if m.protocol = "https".toList then some HostType.Https
        else if m.protocol = "http".toList then some HostType.Http
        else if (m.protocol.isEmpty || decide (m.protocol = "ssh".toList)) = true
          then some HostType.Ssh
        else none) = some ty := by
    rcases hproto with hp | hp
    · exact ⟨HostType.Https, by decide, by rw [hp]; rfl⟩
    · exact ⟨HostType.Http, by decide, by rw [hp]; rfl⟩
  obtain ⟨ty, hne, hty⟩ := hty
  have hne2 : (ty != HostType.Ssh) = true := by simpa using hne
  unfold fillFromRemote
  split
  · exact ⟨r, rfl, rfl, rfl⟩
  · split
    · exact ⟨r, rfl, rfl, rfl⟩
    · simp only [hm, hty, hne2, hc, if_true]
      split
      · exact ⟨_, rfl, rfl, rfl⟩
      · exact ⟨_, rfl, rfl, rfl⟩

/-- C13 on `https://example.org/review/myrepo` with no probing tool
configured: not applicable, nothing asked. -/
theorem fillFromRemote_no_tool_witness :
    ∃ r', fillFromRemote (scriptedHost false (fun _ => okResponse) true true)
        "https://example.org/review/myrepo".toList { sampleParameters with curl := [] }
        freshRun = some (false, r') ∧
      r'.trace = freshRun.trace ∧ r'.world = freshRun.world :=
  fillFromRemote_no_tool (scriptedHost false (fun _ => okResponse) true true)
    "https://example.org/review/myrepo".toList { sampleParameters with curl := [] } freshRun
    ⟨"https".toList, [], "example.org".toList, [], "/review/myrepo".toList⟩
    (by decide) (Or.inl (by decide)) (Or.inl (by decide))

/-! ## Resolution of the root path, continued -/

/-- C18: a probe result other than 200, 401 and 404 makes `resolveRoot`
return false at once: the trace gains that one probe and nothing else, and
`rootPath` and `authenticated` are as they were before the probe. -/
theorem resolveRoot_other {σ : Type} (h : Host σ) (r : Run σ)
    (hcode : (testConnection h r).1 ≠ 200 ∧ (testConnection h r).1 ≠ 401 ∧
      (testConnection h r).1 ≠ 404) :
    ∃ r', resolveRoot h r = some (false, r') ∧
      r'.trace = r.trace ++
        [Event.probe r.server.curlBinary (curlArguments ++ [r.server.restUrl ++ accountUrlC])] ∧
      r'.server.rootPath = r.server.rootPath ∧
      r'.server.authenticated = r.server.authenticated := by
  refine ⟨(testConnection h r).2, ?_, testConnection_trace h r, testConnection_rootPath h r, ?_⟩
  · rw [resolveRoot_step, if_neg hcode.1, if_neg hcode.2.1, if_neg hcode.2.2]
  · rw [testConnection_server]

/-- C18 on a probing tool that gets a server error 500: resolution fails
after the one probe. -/
theorem resolveRoot_other_witness :
    ∃ r', resolveRoot (scriptedHost false
          (fun _ => errorResponse "curl: (22) The requested URL returned error: 500") true true)
        (httpsRun "/review") = some (false, r') ∧
      r'.trace = (httpsRun "/review").trace ++
        [Event.probe (httpsRun "/review").server.curlBinary
          (curlArguments ++ [(httpsRun "/review").server.restUrl ++ accountUrlC])] ∧
      r'.server.rootPath = (httpsRun "/review").server.rootPath ∧
      r'.server.authenticated = (httpsRun "/review").server.authenticated :=
  resolveRoot_other (scriptedHost false
      (fun _ => errorResponse "curl: (22) The requested URL returned error: 500") true true)
    (httpsRun "/review") ⟨by decide, by decide, by decide⟩

/-- What `ascendPath` leaves is a prefix of the path it was given. -/
theorem ascendPath_rootPath_prefix (s : GerritServer) :
    s.ascendPath.2.rootPath <+: s.rootPath := by
  unfold GerritServer.ascendPath
  cases lastIndexOf '/' s.rootPath with
  | none => exact List.prefix_refl _
  | some i => exact List.take_prefix _ _

theorem resolveRootLoop_rootPath_prefix {σ : Type} (h : Host σ) : ∀ (fuel : Nat) (r : Run σ)
    (res : Bool × Run σ), resolveRootLoop h fuel r = some res →
    res.2.server.rootPath <+: r.server.rootPath := by
  intro fuel
  induction fuel with
  | zero => intro r res hres; simp [resolveRootLoop] at hres
  | succ n ih =>
    intro r res hres
    have ht := testConnection_rootPath h r
    unfold resolveRootLoop at hres
    simp only at hres
    split at hres
    · simp only [Option.some.injEq] at hres
      subst hres
      rw [ht]
    · split at hres
      · simp only [Option.some.injEq] at hres
        subst hres
        rw [setupAuthentication_server]
        simp only
        rw [ht]
      · split at hres
        · split at hres
          · simp only [Option.some.injEq] at hres
            subst hres
            have := ascendPath_rootPath_prefix (testConnection h r).2.server
            rw [ht] at this
            exact this
          · have h1 := ih _ _ hres
            have h2 := ascendPath_rootPath_prefix (testConnection h r).2.server
            rw [ht] at h2
            exact List.IsPrefix.trans h1 h2
        · simp only [Option.some.injEq] at hres
          subst hres
          rw [ht]

/-- C16: `ascendPath` returns true exactly when `rootPath` has a `/`; it then
cuts `rootPath` just before its last `/`, and otherwise leaves the descriptor
as it is. So whatever the surroundings answer, `rootPath` at the end of
`resolveRoot`, and of the loop stopped after any number of turns, is a prefix
of the `rootPath` at the start. -/
theorem rootPath_only_shrinks {σ : Type} (h : Host σ) (s : GerritServer) :
    (s.ascendPath.1 = true ↔ '/' ∈ s.rootPath) ∧
    (∀ i, lastIndexOf '/' s.rootPath = some i →
      s.ascendPath.2.rootPath = s.rootPath.take i ∧ s.rootPath[i]? = some '/' ∧
        '/' ∉ s.rootPath.drop (i + 1)) ∧
    ('/' ∉ s.rootPath → s.ascendPath.2 = s) ∧
    (∀ (fuel : Nat) (r : Run σ) (res : Bool × Run σ), resolveRootLoop h fuel r = some res →
      res.2.server.rootPath <+: r.server.rootPath) ∧
    (∀ (r : Run σ), ∃ res, resolveRoot h r = some res ∧
      res.2.server.rootPath <+: r.server.rootPath) := by
  refine ⟨ascendPath_fst s, ?_, ?_, resolveRootLoop_rootPath_prefix h, ?_⟩
  · intro i hi
    refine ⟨?_, lastIndexOf_spec '/' s.rootPath i hi⟩
    unfold GerritServer.ascendPath
    rw [hi]
  · intro hno
    unfold GerritServer.ascendPath
    rw [(lastIndexOf_eq_none_iff '/' s.rootPath).2 hno]
  · intro r
    obtain ⟨res, hres⟩ := Option.isSome_iff_exists.1 (resolveRoot_isSome h r)
    exact ⟨res, hres, resolveRootLoop_rootPath_prefix h _ r res hres⟩

/-- C16 at the root path `/review/gerrit`: the last `/` is at index 7, and
one ascend leaves `/review`. -/
theorem rootPath_only_shrinks_witness :
    (httpsRun "/review/gerrit").server.ascendPath.2.rootPath = "/review/gerrit".toList.take 7 ∧
    (httpsRun "/review/gerrit").server.rootPath[7]? = some '/' ∧
    '/' ∉ (httpsRun "/review/gerrit").server.rootPath.drop (7 + 1) :=
  (rootPath_only_shrinks (scriptedHost false notFoundScript true true)
    (httpsRun "/review/gerrit").server).2.1 7 (by decide)

theorem probeCount_append_probe (t : List Event) (b : List Char) (a : List (List Char)) :
    probeCount (t ++ [Event.probe b a]) = probeCount t + 1 := by
  simp [probeCount, List.filter_append]

theorem probeCount_append_dialog (t : List Event) :
    probeCount (t ++ [Event.authenticationDialog]) = probeCount t := by
  simp [probeCount, List.filter_append]

theorem setupAuthentication_trace {σ : Type} (h : Host σ) (r : Run σ) :
    (setupAuthentication h r).2.trace = r.trace ++ [Event.authenticationDialog] := by
  unfold setupAuthentication
  simp only
  split <;> rfl

/-- The loop makes at most one probe for each segment of `rootPath`, and one
more. -/
theorem resolveRootLoop_probeCount {σ : Type} (h : Host σ) : ∀ (fuel : Nat) (r : Run σ)
    (res : Bool × Run σ), resolveRootLoop h fuel r = some res →
    probeCount res.2.trace ≤ probeCount r.trace + segmentCount r.server.rootPath + 1 := by
  intro fuel
  induction fuel with
  | zero => intro r res hres; simp [resolveRootLoop] at hres
  | succ n ih =>
    intro r res hres
    have ht := testConnection_trace h r
    have hroot := testConnection_rootPath h r
    unfold resolveRootLoop at hres
    simp only at hres
    split at hres
    · simp only [Option.some.injEq] at hres
      subst hres
      rw [ht, probeCount_append_probe]
      omega
    · split at hres
      · simp only [Option.some.injEq] at hres
        subst hres
        rw [setupAuthentication_trace, probeCount_append_dialog, ht, probeCount_append_probe]
        omega
      · split at hres
        · split at hres
          · simp only [Option.some.injEq] at hres
            subst hres
            simp only
            rw [ht, probeCount_append_probe]
            omega
          · rename_i ha
            have h1 := ih _ _ hres
            simp only at h1
            rw [ht, probeCount_append_probe] at h1
            have h2 : segmentCount (testConnection h r).2.server.ascendPath.2.rootPath + 1 =
                segmentCount r.server.rootPath := by
              unfold GerritServer.ascendPath at ha ⊢
              rw [hroot] at ha ⊢
              cases hl : lastIndexOf '/' r.server.rootPath with
              | none => simp [hl] at ha
              | some i => exact count_take_lastIndexOf '/' _ i hl
            omega
        · simp only [Option.some.injEq] at hres
          subst hres
          rw [ht, probeCount_append_probe]
          omega

/-- Resolution started after one ascend from a path with a `/` makes at
most one probe for each segment of that path. -/
theorem resolveRoot_after_ascend {σ : Type} (h : Host σ) (s : GerritServer) (w : σ)
    (t : List Event) (res : Bool × Run σ) (hslash : '/' ∈ s.rootPath)
    (hres : resolveRoot h { server := s.ascendPath.2, world := w, trace := t } = some res) :
    probeCount res.2.trace ≤ probeCount t + segmentCount s.rootPath := by
  have hb := resolveRootLoop_probeCount h _ _ res hres
  simp only at hb
  have hseg : segmentCount s.ascendPath.2.rootPath + 1 = segmentCount s.rootPath := by
    unfold GerritServer.ascendPath
    cases hl : lastIndexOf '/' s.rootPath with
    | none => exact absurd hslash ((lastIndexOf_eq_none_iff '/' s.rootPath).1 hl)
    | some i => exact count_take_lastIndexOf '/' _ i hl
  omega

/-- C14: for a remote whose captured path has `N` segments, `fillFromRemote`
returns, whatever the probing tool and the dialog answer, and has made at
most `N` probes when it does. -/
theorem fillFromRemote_probe_bound {σ : Type} (h : Host σ) (remote : List Char)
    (parameters : GerritParameters) (r : Run σ) (m : RemoteMatch)
    (hm : remotePatternMatch remote = some m) :
    ∃ res, fillFromRemote h remote parameters r = some res ∧
      probeCount res.2.trace ≤ probeCount r.trace + segmentCount m.path := by
  have hslash : '/' ∈ m.path := by
    obtain ⟨⟨q, hq, _⟩, _⟩ := remotePatternMatch_wellFormed remote m hm
    rw [hq]
    exact List.mem_cons_self _ _
  unfold fillFromRemote
  split
  · exact ⟨_, rfl, by simp⟩
  · split
    · exact ⟨_, rfl, by simp⟩
    · simp only [hm]
      split
      · exact ⟨_, rfl, by simp⟩
      · split
        · exact ⟨_, rfl, by simp⟩
        · split
          · split
            · exact ⟨_, rfl, by simp⟩
            · generalize hR : resolveRoot h _ = o
              cases o with
              | none =>
                have hsome := hR ▸ resolveRoot_isSome h _
                simp at hsome
              | some res =>
                have hb := resolveRoot_after_ascend h _ _ _ res hslash hR
                simp only
                split
                · exact ⟨_, rfl, hb⟩
                · exact ⟨_, rfl, hb⟩
          · exact ⟨_, rfl, by simp⟩

/-- C14 on `https://example.org/review/myrepo` with a tool that never finds
the page: the path has two segments, and `fillFromRemote` returns after at
most two probes. -/
theorem fillFromRemote_probe_bound_witness :
    ∃ res, fillFromRemote (scriptedHost false notFoundScript true true)
        "https://example.org/review/myrepo".toList sampleParameters freshRun = some res ∧
      probeCount res.2.trace ≤ probeCount freshRun.trace + segmentCount "/review/myrepo".toList :=
  fillFromRemote_probe_bound (scriptedHost false notFoundScript true true)
    "https://example.org/review/myrepo".toList sampleParameters freshRun
    ⟨"https".toList, [], "example.org".toList, [], "/review/myrepo".toList⟩ (by decide)

/-- The bound of C14 is reached: on `https://example.org/review/myrepo` with
a tool that never finds the page, resolution fails after exactly two probes,
at `/review` and at the empty root path. -/
theorem fillFromRemote_two_probes :
    (fillFromRemote (scriptedHost false notFoundScript true true)
        "https://example.org/review/myrepo".toList sampleParameters freshRun).map
      (fun x => (x.1, x.2.trace)) =
      some (false,
        [Event.probe "/usr/bin/curl".toList
          (curlArguments ++ ["https://bob@example.org/review/accounts/self".toList]),
         Event.probe "/usr/bin/curl".toList
          (curlArguments ++ ["https://bob@example.org/accounts/self".toList])]) := by
  decide

/-- The code a probe returns, read off the answer of the probing tool. -/
theorem testConnection_code {σ : Type} (h : Host σ) (r : Run σ) :
    (testConnection h r).1 =
      if (h.exec r.world r.server.curlBinary
          (curlArguments ++ [r.server.restUrl ++ accountUrlC])).1.finished = true then 200
      else
        match errorRegexpMatch (h.exec r.world r.server.curlBinary
          (curlArguments ++ [r.server.restUrl ++ accountUrlC])).1.stdErr with
        | some code => toInt code
        | none => 400 := by
  unfold testConnection
  simp only
  split
  · split <;> rfl
  · split <;> rfl

/-- A successful resolution ended either in a probe that returned 200 or in
the authentication dialog. -/
theorem resolveRootLoop_success {σ : Type} (h : Host σ) : ∀ (fuel : Nat) (r r1 : Run σ),
    resolveRootLoop h fuel r = some (true, r1) →
    (∃ r0 : Run σ, (testConnection h r0).1 = 200 ∧ r1 = (testConnection h r0).2) ∨
      r1.trace.getLast? = some Event.authenticationDialog := by
  intro fuel
  induction fuel with
  | zero => intro r r1 hres; simp [resolveRootLoop] at hres
  | succ n ih =>
    intro r r1 hres
    unfold resolveRootLoop at hres
    simp only at hres
    split at hres
    · rename_i h200
      simp only [Option.some.injEq, Prod.mk.injEq, true_and] at hres
      exact Or.inl ⟨r, h200, hres.symm⟩
    · split at hres
      · simp only [Option.some.injEq] at hres
        right
        have ht := setupAuthentication_trace h (testConnection h r).2
        rw [hres] at ht
        simp only at ht
        rw [ht]
        simp
      · split at hres
        · split at hres
          · simp at hres
          · exact ih _ _ hres
        · simp at hres

/-- C15 fails after a success that came from the dialog: with a probing tool
whose answer does not depend on the state of the world (it asks for
credentials on every run) and a dialog that is accepted, `resolveRoot`
returns true, and a probe of the descriptor it leaves returns 401, not 200. -/
theorem resolveRoot_again_401 :
    (∀ (w w' : Nat) (binary : List Char) (arguments : List (List Char)),
      ((scriptedHost false unauthorizedScript true true).exec w binary arguments).1 =
        ((scriptedHost false unauthorizedScript true true).exec w' binary arguments).1) ∧
    (resolveRoot (scriptedHost false unauthorizedScript true true) (httpsRun "/review")).map
        (fun x => (x.1, (testConnection (scriptedHost false unauthorizedScript true true) x.2).1,
          x.2.server.rootPath)) =
      some (true, 401, "/review".toList) :=
  ⟨fun _ _ _ _ => rfl, by decide⟩

/-- C15, amended: for a probing tool whose answer is a function of the binary
and the arguments (the requested URL) alone, and a descriptor on which
`resolveRoot` has just returned true with a probe as its last step (not the
authentication dialog), a probe of that descriptor returns 200 again, and a
second `resolveRoot` returns true after that one probe with `rootPath`
unchanged. -/
theorem resolveRoot_again {σ : Type} (h : Host σ)
    (hfun : ∀ (w w' : σ) (binary : List Char) (arguments : List (List Char)),
      (h.exec w binary arguments).1 = (h.exec w' binary arguments).1)
    (r r1 : Run σ) (hres : resolveRoot h r = some (true, r1))
    (hlast : r1.trace.getLast? ≠ some Event.authenticationDialog) :
    (testConnection h r1).1 = 200 ∧
    ∃ r2, resolveRoot h r1 = some (true, r2) ∧
      r2.server.rootPath = r1.server.rootPath ∧
      r2.trace = r1.trace ++
        [Event.probe r1.server.curlBinary
          (curlArguments ++ [r1.server.restUrl ++ accountUrlC])] := by
  have h200 : (testConnection h r1).1 = 200 := by
    rcases resolveRootLoop_success h _ r r1 hres with ⟨r0, hr0, hr1⟩ | hd
    · have hs := testConnection_server h r0
      have hcurl : r1.server.curlBinary = r0.server.curlBinary := by rw [hr1, hs]
      have hurl : r1.server.restUrl = r0.server.restUrl := by
        rw [hr1, hs]
        rfl
      rw [testConnection_code] at hr0 ⊢
      rw [hcurl, hurl, hfun r1.world r0.world]
      exact hr0
    · exact absurd hd hlast
  refine ⟨h200, (testConnection h r1).2, ?_, testConnection_rootPath h r1,
    testConnection_trace h r1⟩
  rw [resolveRoot_step, if_pos h200]

/-- C15, amended, on a probing tool that finishes on every run: after the
first resolution at `/review`, a second one succeeds on its first probe. -/
theorem resolveRoot_again_witness :
    (testConnection (scriptedHost false (fun _ => okResponse) true true)
      (testConnection (scriptedHost false (fun _ => okResponse) true true)
        (httpsRun "/review")).2).1 = 200 ∧
    ∃ r2, resolveRoot (scriptedHost false (fun _ => okResponse) true true)
        (testConnection (scriptedHost false (fun _ => okResponse) true true)
          (httpsRun "/review")).2 = some (true, r2) ∧
      r2.server.rootPath = (testConnection (scriptedHost false (fun _ => okResponse) true true)
          (httpsRun "/review")).2.server.rootPath ∧
      r2.trace = (testConnection (scriptedHost false (fun _ => okResponse) true true)
          (httpsRun "/review")).2.trace ++
        [Event.probe (testConnection (scriptedHost false (fun _ => okResponse) true true)
            (httpsRun "/review")).2.server.curlBinary
          (curlArguments ++ [(testConnection (scriptedHost false (fun _ => okResponse) true true)
            (httpsRun "/review")).2.server.restUrl ++ accountUrlC])] :=
  resolveRoot_again (scriptedHost false (fun _ => okResponse) true true) (fun _ _ _ _ => rfl)
    (httpsRun "/review")
    (testConnection (scriptedHost false (fun _ => okResponse) true true) (httpsRun "/review")).2
    (by decide) (by decide)

/-! ## The code of a failed probe -/

/-- A greedy repetition offers first the longest run of the class: the
prefix `t` when the rest does not begin with a character of the class. -/
theorem greedy_longest (cls : Char → Bool) : ∀ (t r : List Char) (least : Nat),
    (∀ c ∈ t, cls c = true) → (∀ c, r.head? = some c → cls c = false) →
    least ≤ t.length → ∃ l, greedy cls least (t ++ r) = (t, r) :: l := by
  intro t
  induction t with
  | nil =>
    intro r least _ hr hl
    have h0 : least = 0 := by simpa using hl
    cases r with
    | nil => exact ⟨[], by simp [greedy, h0]⟩
    | cons c cs =>
      have hc := hr c rfl
      exact ⟨[], by simp [greedy, h0, hc]⟩
  | cons c cs ih =>
    intro r least hall hr hl
    obtain ⟨l, hl2⟩ := ih r (least - 1) (fun x hx => hall x (List.mem_cons_of_mem _ hx)) hr
      (by simp only [List.length_cons] at hl; omega)
    refine ⟨l.map (fun tr => (c :: tr.1, tr.2)) ++
      (if least = 0 then [([], c :: (cs ++ r))] else []), ?_⟩
    rw [List.cons_append]
    unfold greedy
    rw [if_pos (hall c (List.mem_cons_self _ _)), hl2]
    rfl

/-- Where the text `returned error: ` does not begin, the search moves on. -/
theorem errorRegexpMatch_skip (c : Char) (cs : List Char)
    (hno : "returned error: ".toList.isPrefixOf (c :: cs) = false) :
    errorRegexpMatch (c :: cs) = errorRegexpMatch cs := by
  rw [errorRegexpMatch]
  simp only [hno, Bool.false_eq_true, if_false]

/-- Where the text `returned error: ` begins and digits follow, the search
ends with those digits. -/
theorem errorRegexpMatch_here (digits post : List Char) (hne : digits ≠ [])
    (hdigits : ∀ c ∈ digits, c.isDigit = true)
    (hpost : ∀ c, post.head? = some c → c.isDigit = false) :
    errorRegexpMatch ("returned error: ".toList ++ (digits ++ post)) = some digits := by
  obtain ⟨l, hl⟩ := greedy_longest Char.isDigit digits post 1 hdigits hpost
    (by cases digits with
        | nil => exact absurd rfl hne
        | cons _ _ => simp)
  have e : "returned error: ".toList ++ (digits ++ post) =
      'r' :: ("eturned error: ".toList ++ (digits ++ post)) := rfl
  rw [e, errorRegexpMatch]
  have hp : "returned error: ".toList.isPrefixOf
      ('r' :: ("eturned error: ".toList ++ (digits ++ post))) = true := by
    simp [List.isPrefixOf]
  have hd : List.drop 16 ('r' :: ("eturned error: ".toList ++ (digits ++ post))) =
      digits ++ post := by
    simp
  rw [if_pos hp, hd, hl]
  rfl

/-- Before the first place where the text `returned error: ` begins, the
search finds nothing. -/
theorem errorRegexpMatch_first : ∀ (pre rest : List Char),
    (∀ k, k < pre.length → "returned error: ".toList.isPrefixOf ((pre ++ rest).drop k) = false) →
    errorRegexpMatch (pre ++ rest) = errorRegexpMatch rest := by
  intro pre
  induction pre with
  | nil => intro rest _; rfl
  | cons c cs ih =>
    intro rest hk
    rw [List.cons_append, errorRegexpMatch_skip c (cs ++ rest) (hk 0 (by simp))]
    apply ih
    intro k hlt
    have := hk (k + 1) (by simp only [List.length_cons]; omega)
    simpa using this

/-- A text in which `returned error: ` is nowhere followed by a digit has no
match. -/
theorem errorRegexpMatch_none : ∀ (s : List Char),
    (∀ pre d post, s = pre ++ ("returned error: ".toList ++ d :: post) → d.isDigit = false) →
    errorRegexpMatch s = none := by
  intro s
  induction s with
  | nil => intro _; rfl
  | cons c cs ih =>
    intro hs
    have htail : errorRegexpMatch cs = none := by
      apply ih
      intro pre d post e
      exact hs (c :: pre) d post (by rw [e]; rfl)
    cases hp : "returned error: ".toList.isPrefixOf (c :: cs) with
    | false => rw [errorRegexpMatch_skip c cs hp, htail]
    | true =>
      obtain ⟨rem, hrem⟩ := List.isPrefixOf_iff_prefix.1 hp
      have hd : List.drop 16 (c :: cs) = rem := by
        rw [← hrem]
        exact List.drop_left' (by decide)
      have hg : greedy Char.isDigit 1 rem = [] := by
        cases rem with
        | nil => simp [greedy]
        | cons d post =>
          have := hs [] d post (by rw [← hrem]; rfl)
          simp [greedy, this]
      rw [errorRegexpMatch, if_pos hp, hd, hg]
      exact htail

/-- C17 fails when the code does not fit an `int`: with
`returned error: 4294967700` on stderr the decimal code is 4294967700, and
`testConnection` returns 0. -/
theorem testConnection_code_overflow :
    (testConnection (scriptedHost false
        (fun _ => errorResponse "curl: (22) The requested URL returned error: 4294967700")
        true true) (httpsRun "/review")).1 = 0 ∧
    digitsValue 0 "4294967700".toList = 4294967700 := by
  decide

/-- C17, amended: when the probing tool does not finish, `testConnection`
returns the value of the decimal code that follows the first occurrence of
`returned error: ` in stderr when digits follow it there and the value is at
most 2147483647, and 0 when the value is larger; it returns 400 when
`returned error: ` is nowhere followed by a digit. -/
theorem testConnection_failure_code {σ : Type} (h : Host σ) (r : Run σ)
    (resp : SynchronousProcessResponse)
    (hresp : (h.exec r.world r.server.curlBinary
      (curlArguments ++ [r.server.restUrl ++ accountUrlC])).1 = resp)
    (hfail : resp.finished = false) :
    (∀ pre digits post : List Char,
      resp.stdErr = pre ++ ("returned error: ".toList ++ (digits ++ post)) →
      (∀ k, k < pre.length →
        "returned error: ".toList.isPrefixOf (resp.stdErr.drop k) = false) →
      digits ≠ [] → (∀ c ∈ digits, c.isDigit = true) →
      (∀ c, post.head? = some c → c.isDigit = false) →
      (testConnection h r).1 =
        if digitsValue 0 digits ≤ 2147483647 then digitsValue 0 digits else 0) ∧
    ((∀ pre d post, resp.stdErr = pre ++ ("returned error: ".toList ++ d :: post) →
        d.isDigit = false) →
      (testConnection h r).1 = 400) := by
  have hcode := testConnection_code h r
  rw [hresp] at hcode
  simp only [hfail, Bool.false_eq_true, if_false] at hcode
  constructor
  · intro pre digits post hstd hfirst hne hdigits hpost
    rw [hstd] at hfirst
    rw [hcode, hstd, errorRegexpMatch_first _ _ hfirst,
      errorRegexpMatch_here digits post hne hdigits hpost]
    rfl
  · intro hnone
    rw [hcode, errorRegexpMatch_none _ hnone]

/-- C17, amended, on `curl: (22) The requested URL returned error: 404 Not
Found`: the code is 404. -/
theorem testConnection_failure_code_witness :
    (testConnection (scriptedHost false notFoundScript true true) (httpsRun "/review")).1 =
      if digitsValue 0 "404".toList ≤ 2147483647 then digitsValue 0 "404".toList else 0 :=
  (testConnection_failure_code (scriptedHost false notFoundScript true true) (httpsRun "/review")
    (notFoundScript 0) rfl rfl).1
    "curl: (22) The requested URL ".toList "404".toList " Not Found".toList
    (by decide) (by decide) (by decide) (by decide) (by decide)

end Gerrit
